import Mathlib

/-!
# uniqlog: a shallow embedding of `uniqlog.go`

The definitions below follow `src/uniqlog.go` function by function.

Modelling conventions

* A Go `string` is a Lean `String`; `len(s)` is the UTF-8 byte length
  `s.utf8ByteSize`; `==` on strings is equality of the strings.
* A Go `int` is a Lean `Int`.  The counters of `Perform` count input lines, so
  64-bit overflow is out of reach and is not modelled.  Go's `%` truncates
  towards zero; it is `Int.tmod`.
* A run-time panic (index out of range) is the result `none`.
* A `float64` similarity is the exact rational number it stands for, and the
  two thresholds are rational numbers; rounding is not modelled.
* The wall clock is not part of the embedding.  The only place where the
  program reads it to take a decision is the test
  `time.Since(lastOutputTime) >= TIME_WITHOUT_OUTPUT` in front of the progress
  notice; its outcome while consumed line number `inp` is processed is
  `slow inp`, for an arbitrary `slow : Int → Bool`.
* Standard output is the list of the `fmt.Printf` calls made, in order, each
  with its arguments (`Printed`).
* The scanner is the list of the lines it delivers before `Scan` first returns
  false.  When it has reached the end of the input, `Scan` goes on returning
  false and the loop body runs once more (`Perform`).  When it has stopped at a
  line longer than its buffer, the next call of `Scan` returns true once, with
  the buffer it holds, and the body runs twice more (`PerformTooLong`).
-/

namespace Uniqlog

/-! ## Constants -/

/-- Ring size: `const MAX_LINES_TRACK = 50`. -/
def MAX_LINES_TRACK : Int := 50

def ColorWhite : String := "\x1b[1;38m"
def ColorRed : String := "\x1b[1;31m"
def ColorMagenta : String := "\x1b[1;35m"
def ColorGray : String := "\x1b[1;90m"
def ColorBgDark : String := "\x1b[1;100m"
def ColorReset : String := "\x1b[0m"

/-! ## Library functions used by the program -/

/-- Go's `len` on a string: the number of bytes. -/
def len (s : String) : Int := (s.utf8ByteSize : Int)

/-- Indexing `xs[i]` of a Go slice: a negative or too large index panics. -/
def at? {α : Type} (xs : List α) (i : Int) : Option α :=
  if i < 0 then none else xs[i.toNat]?

/-- Assignment `xs[i] = v` to a Go slice: a negative or too large index panics. -/
def setAt? {α : Type} (xs : List α) (i : Int) (v : α) : Option (List α) :=
  if i < 0 then none else if i.toNat < xs.length then some (xs.set i.toNat v) else none

/-- White space as `unicode.IsSpace` defines it. -/
def isSpace (c : Char) : Bool :=
  let n := c.toNat
  n == 0x09 || n == 0x0A || n == 0x0B || n == 0x0C || n == 0x0D || n == 0x20 ||
  n == 0x85 || n == 0xA0 || n == 0x1680 || (0x2000 ≤ n && n ≤ 0x200A) ||
  n == 0x2028 || n == 0x2029 || n == 0x202F || n == 0x205F || n == 0x3000

/-- The loop of `strings.Fields`: `cur` is the field being read. -/
def fieldsFrom (cur : List Char) : List Char → List String
  | [] => if cur.isEmpty then [] else [String.mk cur]
  | c :: cs =>
    if isSpace c then
      (if cur.isEmpty then fieldsFrom [] cs else String.mk cur :: fieldsFrom [] cs)
    else fieldsFrom (cur ++ [c]) cs

/-- Go's `strings.Fields`: the maximal runs of non-space characters, in order. -/
def Fields (s : String) : List String := fieldsFrom [] s.data

/-- Whether `pat` occurs in `s` as a contiguous substring. -/
def containsSub (pat : List Char) : List Char → Bool
  | [] => pat.isEmpty
  | c :: cs => pat.isPrefixOf (c :: cs) || containsSub pat cs

/-- The test `REG_HEX_VALUE.MatchString`, for the pattern `^[0-9a-f]+$`. -/
def REG_HEX_VALUE (s : String) : Bool :=
  !s.data.isEmpty && s.data.all (fun c => ('0' ≤ c && c ≤ '9') || ('a' ≤ c && c ≤ 'f'))

/-- The test `REG_HTTP_METHOD.MatchString`, for the pattern `^GET|HEAD|PUT|POST$` as the
source writes it.  Alternation binds weaker than the anchors, so the pattern is
`(^GET)|(HEAD)|(PUT)|(POST$)`, and `MatchString` looks for a match anywhere in
the text. -/
def REG_HTTP_METHOD (s : String) : Bool :=
  "GET".data.isPrefixOf s.data || containsSub "HEAD".data s.data ||
  containsSub "PUT".data s.data || "POST".data.isSuffixOf s.data

/-- Modelled from the spec: the edit distance between two tokens.  The source
calls `levenshtein.Distance` of the imported package
`github.com/arbovm/levenshtein`, whose code is not part of the repository; it is
the Levenshtein distance (insertions, deletions and substitutions, each of cost
one) between the two strings as sequences of code points. -/
def Distance (a b : String) : Int :=
  ((levenshtein Levenshtein.defaultCost a.data b.data : Nat) : Int)

/-- The function `max` of the source. -/
def max (x y : Int) : Int := if x > y then x else y

/-! ## GetSimilarity -/

/-- The loop of `GetSimilarity` (source lines 88-95), started at index `i` with
`sameTokens` matches counted so far; `fuel` is the number of iterations the
loop header still allows (`compareTokens - i`).  Returns `sameTokens`. -/
def countSame (prevTokens tokens : List String) (totalTokens compareTokens : Int) :
    Nat → Int → Int → Option Int
  | 0, _, sameTokens => some sameTokens
  | fuel + 1, i, sameTokens =>
    if i < compareTokens then
      if i ≥ (prevTokens.length : Int) then some sameTokens
      else do
        let t ← at? tokens (totalTokens - 1 - i)
        let p ← at? prevTokens ((prevTokens.length : Int) - 1 - i)
        countSame prevTokens tokens totalTokens compareTokens fuel (i + 1)
          (if t = p then sameTokens + 1 else sameTokens)
    else some sameTokens

/-- The function `GetSimilarity` of the source; `none` is an index panic. -/
def GetSimilarity (prevTokens tokens : List String) : Option ℚ :=
  let totalTokens : Int := tokens.length
  if totalTokens < 1 then some 0
  else if totalTokens < 3 then do
    let idx := totalTokens - 1
    let p ← at? prevTokens idx
    let t ← at? tokens idx
    if p = t then some 1
    else if REG_HEX_VALUE p && REG_HEX_VALUE p && len p == len t then some (9 / 10)
    else if REG_HTTP_METHOD p && REG_HTTP_METHOD p then some (9 / 10)
    else
      let dist := Distance p t
      some (1 - (dist : ℚ) / ((max (len p) (len t) : Int) : ℚ))
  else do
    let compareTokens := totalTokens - 1
    let sameTokens ← countSame prevTokens tokens totalTokens compareTokens
      compareTokens.toNat 0 0
    some ((sameTokens : ℚ) / (compareTokens : ℚ))

/-- The tail-aligned match count in the words of the specification: the number
of offsets `i` with `0 ≤ i < min (n - 1) m` at which token `n - 1 - i` of
`curTokens` equals token `m - 1 - i` of `prevTokens` (`n` and `m` the two
lengths). -/
def tailMatches (prevTokens curTokens : List String) : Nat :=
  ((List.range (min (curTokens.length - 1) prevTokens.length)).filter
    (fun i => curTokens[curTokens.length - 1 - i]? ==
      prevTokens[prevTokens.length - 1 - i]?)).length

/-- The pattern `^(GET|HEAD|PUT|POST)$` of the specification: the text is one
of the four method names. -/
def isHttpMethod (s : String) : Bool :=
  s == "GET" || s == "HEAD" || s == "PUT" || s == "POST"

/-- The similarity of two compared tokens of a short line in the words of the
specification. -/
def shortSimilaritySpec (a b : String) : ℚ :=
  if a = b then 1
  else if REG_HEX_VALUE a && REG_HEX_VALUE b && len a == len b then 9 / 10
  else if isHttpMethod a && isHttpMethod b then 9 / 10
  else 1 - (Distance a b : ℚ) / ((max (len a) (len b) : Int) : ℚ)

/-! ## PrintSimilarity -/

/-- The bytes of a string (its UTF-8 encoding). -/
def bytes (s : String) : List Nat :=
  s.data.flatMap (fun c => (String.utf8EncodeChar c).map (fun b => b.toNat))

/-- The loop of `PrintSimilarity`: `range prvLine` visits the code points of
`prvLine`, `idx` being the byte offset at which each one starts. -/
def printSimilarityLoop (curBytes : List Nat) : List Char → Nat → String → String
  | [], _, res => res
  | c :: cs, idx, res =>
    let p : Nat := ((String.utf8EncodeChar c).map (fun b => b.toNat)).headD 0
    let cmp : Nat := if idx < curBytes.length then curBytes.getD idx 0 else 0
    printSimilarityLoop curBytes cs (idx + c.utf8Size)
      (if p = cmp then res ++ ColorWhite ++ String.singleton (Char.ofNat p)
       else res ++ ColorReset ++ String.singleton (Char.ofNat p))

/-- The function `PrintSimilarity` of the source. -/
def PrintSimilarity (prvLine curLine : String) : String :=
  printSimilarityLoop (bytes curLine) prvLine.data 0 "" ++ ColorReset

/-! ## Perform -/

/-- One call of `fmt.Printf` in `Perform`, with its arguments. -/
inductive Printed where
  /-- The call `fmt.Printf("%s\n", s)` (source lines 197, 232, 253, 262). -/
  | plain (s : String)
  /-- The progress notice of source line 168. -/
  | progress (repeats : Int)
  /-- The call `fmt.Printf("%s%s\n", prefix, simLines[i])` (source line 181). -/
  | block (pfx : String) (line : String)
  /-- The footer `-- repeated %d more times --` of source line 184. -/
  | footer (repeats : Int)
  /-- The debug line `--- Failed at ... range: ... sim: ...` of source line 188. -/
  | failedAt (index : Int) (range : Int) (similarity : ℚ)
  /-- The debug line of source line 201, showing the current line. -/
  | mismatchLine (line : String)
  /-- The debug line of source line 202, showing the template line. -/
  | mismatchTemplate (line : String)
  /-- The debug line of source line 206, showing a remaining template line. -/
  | remaining (line : String)
  /-- The debug line `---` of source line 209. -/
  | mismatchEnd
  deriving DecidableEq, Repr

/-- The two thresholds and the debug level (the globals of the source). -/
structure Config where
  FIRST_SIMILARITY_THRESHOLD : ℚ
  KEEP_SIMILARITY_THRESHOLD : ℚ
  DEBUG : Int
  deriving DecidableEq, Repr

/-- The values the globals have when no option is given. -/
def defaultConfig : Config :=
  { FIRST_SIMILARITY_THRESHOLD := 9 / 10, KEEP_SIMILARITY_THRESHOLD := 49 / 100, DEBUG := 0 }

/-- The variables of `Perform`, and what it has printed so far.  `simBlockLines`
is the variable that the loop body sets from `len(simLines)` when it starts. -/
structure State where
  ll : List String
  li : Int
  simLines : List String
  simBlockIndex : Int
  simBlockRepeats : Int
  out : Int
  inp : Int
  simBlockLines : Int
  stdout : List Printed
  deriving DecidableEq, Repr

/-- The variables as `Perform` sets them up (source lines 127-138). -/
def initialState : State :=
  { ll := List.replicate 50 "", li := 0, simLines := [], simBlockIndex := 0,
    simBlockRepeats := 0, out := 0, inp := 0, simBlockLines := 0, stdout := [] }

/-- A loop `for i := start; ...; i++` of `count` iterations, each of which
computes one value (possibly panicking); the values in order. -/
def collect {α : Type} (f : Int → Option α) : Nat → Int → Option (List α)
  | 0, _ => some []
  | count + 1, i => do
    let x ← f i
    let xs ← collect f count (i + 1)
    some (x :: xs)

/-- Source lines 174-185: the block has been repeated; print it once and the
footer. -/
def printBlock (s : State) : Option State := do
  let single : Bool := s.simBlockLines == 1
  let pfx := if single then "" else ColorBgDark
  let s := if single then { s with simBlockRepeats := s.simBlockRepeats + 1 } else s
  let lines ← collect (fun i => at? s.simLines i) s.simBlockLines.toNat 0
  let s := { s with stdout := s.stdout ++ lines.map (Printed.block pfx),
                    out := s.out + (lines.length : Int) }
  some { s with stdout := s.stdout ++ [Printed.footer s.simBlockRepeats],
                out := s.out + s.simBlockLines * s.simBlockRepeats }

/-- Source lines 187-211: the block broke before one full repetition.  (Lines
190-193, which add one to `inp` and take it away again, have no effect and are
left out.) -/
def falseStart (cfg : Config) (line : String) (similarity : ℚ) (s : State) : Option State := do
  let s := if cfg.DEBUG > 0 then
      { s with stdout := s.stdout ++
          [Printed.failedAt s.simBlockIndex s.simBlockLines similarity] }
    else s
  let diffs ← collect (fun i => do
      let idx := Int.tmod (s.li - s.simBlockLines + i + s.simBlockIndex - 1 + MAX_LINES_TRACK)
        MAX_LINES_TRACK
      let t ← at? s.simLines i
      let h ← at? s.ll idx
      some (Printed.plain (PrintSimilarity t h))) s.simBlockIndex.toNat 0
  let s := { s with stdout := s.stdout ++ diffs, out := s.out + (diffs.length : Int) }
  if cfg.DEBUG > 0 then do
    let t ← at? s.simLines s.simBlockIndex
    let s := { s with stdout := s.stdout ++ [Printed.mismatchLine line, Printed.mismatchTemplate t],
                      out := s.out + 1 }
    let rest ← collect (fun i => (at? s.simLines i).map Printed.remaining)
      (s.simBlockLines - s.simBlockIndex).toNat s.simBlockIndex
    some { s with stdout := s.stdout ++ rest ++ [Printed.mismatchEnd],
                  out := s.out + (rest.length : Int) }
  else some s

/-- Source lines 161-215: a block is open; does the new line continue it? -/
def checkBlock (cfg : Config) (slow : Int → Bool) (line : String) (tokens : List String)
    (s : State) : Option State := do
  let s := { s with simBlockIndex := Int.tmod (s.simBlockIndex + 1) s.simBlockLines }
  let t ← at? s.simLines s.simBlockIndex
  let similarity ← GetSimilarity (Fields t) tokens
  if similarity > cfg.KEEP_SIMILARITY_THRESHOLD then
    if s.simBlockIndex + 1 ≥ s.simBlockLines then
      let s := { s with simBlockRepeats := s.simBlockRepeats + 1 }
      if slow s.inp then
        some { s with stdout := s.stdout ++ [Printed.progress s.simBlockRepeats] }
      else some s
    else some s
  else do
    let s ← (if s.simBlockRepeats > 0 then printBlock s else falseStart cfg line similarity s)
    some { s with simBlockLines := 0, simLines := [] }

/-- Source lines 228-244: history line number `i` (counted backwards) matches;
flush what lies before the window and open the block. -/
def establish (unscanned : Int) (i : Int) (s : State) : Option State := do
  let s := { s with simBlockLines := i + 1 }
  let flushed ← collect (fun j =>
      (at? s.ll (Int.tmod (s.li - unscanned + j + MAX_LINES_TRACK) MAX_LINES_TRACK)).map
        Printed.plain) (unscanned - s.simBlockLines).toNat 0
  let s := { s with stdout := s.stdout ++ flushed, out := s.out + (flushed.length : Int) }
  let s := { s with simBlockRepeats := 0, simBlockIndex := 0 }
  if s.simBlockLines < 0 then none
  else do
    let simLines ← collect (fun j =>
        at? s.ll (Int.tmod (s.li - s.simBlockLines + j + MAX_LINES_TRACK) MAX_LINES_TRACK))
      s.simBlockLines.toNat 0
    some { s with simLines := simLines }

/-- The loop of source lines 221-248, at index `i`; `fuel` is the number of
iterations the loop header still allows (`MAX_LINES_TRACK - i`). -/
def scanLoop (cfg : Config) (tokens : List String) (unscanned : Int) (s : State) :
    Nat → Int → Option State
  | 0, _ => some s
  | fuel + 1, i =>
    if i < MAX_LINES_TRACK then
      if i ≥ unscanned then some s
      else do
        let idx := Int.tmod (s.li - i - 1 + MAX_LINES_TRACK) MAX_LINES_TRACK
        let h ← at? s.ll idx
        let similarity ← GetSimilarity (Fields h) tokens
        if similarity > cfg.FIRST_SIMILARITY_THRESHOLD then establish unscanned i s
        else scanLoop cfg tokens unscanned s fuel (i + 1)
    else some s

/-- Source lines 220-248: no block is open; look for an earlier line that the
new line resembles. -/
def lookForSimilarities (cfg : Config) (tokens : List String) (s : State) : Option State :=
  let unscanned := s.inp - s.out - 1
  scanLoop cfg tokens unscanned s MAX_LINES_TRACK.toNat 0

/-- Source lines 252-258: flush the slot about to be overwritten when the
buffer cannot hold it longer, then store the line. -/
def updateBuffer (line : String) (s : State) : Option State := do
  let s ← (if s.out + MAX_LINES_TRACK ≤ s.inp ∧ s.simBlockLines = 0 then
      (at? s.ll s.li).map (fun h =>
        { s with stdout := s.stdout ++ [Printed.plain h], out := s.out + 1 })
    else some s)
  let ll ← setAt? s.ll s.li line
  some { s with ll := ll, li := Int.tmod (s.li + 1) MAX_LINES_TRACK }

/-- The loop of source lines 261-264, at ring index `idx`; `fuel` is the number
of iterations still to do (`inp - out`). -/
def flushLoop : Nat → Int → State → Option State
  | 0, _, s => some s
  | fuel + 1, idx, s =>
    if s.out < s.inp then do
      let h ← at? s.ll idx
      flushLoop fuel (Int.tmod (idx + 1) MAX_LINES_TRACK)
        { s with stdout := s.stdout ++ [Printed.plain h], out := s.out + 1 }
    else some s

/-- Source lines 260-265: after the last line, flush all remaining lines. -/
def flushRemaining (s : State) : Option State :=
  flushLoop (s.inp - s.out).toNat
    (Int.tmod (s.li - (s.inp - s.out) + MAX_LINES_TRACK) MAX_LINES_TRACK) s

/-- The body of the loop of `Perform` from source line 153 on, for a line that
passed the length test (or for the empty line of the extra last round, when
`lastLine` is set). -/
def iteration (cfg : Config) (slow : Int → Bool) (lastLine : Bool) (line : String)
    (s : State) : Option State := do
  let s := { s with inp := s.inp + 1 }
  let tokens := Fields line
  let s := { s with simBlockLines := (s.simLines.length : Int) }
  let s ← (if s.simBlockLines > 0 then checkBlock cfg slow line tokens s else some s)
  let s ← (if s.simBlockLines = 0 then lookForSimilarities cfg tokens s else some s)
  let s ← updateBuffer line s
  if lastLine then flushRemaining s else some s

/-- The rounds of the loop of `Perform` in which `scanner.Scan()` delivers a
line: a line shorter than two bytes is skipped (`continue`). -/
def mainLoop (cfg : Config) (slow : Int → Bool) : List String → State → Option State
  | [], s => some s
  | line :: rest, s =>
    if len line < 2 then mainLoop cfg slow rest s
    else (iteration cfg slow false line s).bind (mainLoop cfg slow rest)

/-- The function `Perform` of the source on the lines the scanner delivers,
when the scanner reaches the end of the input (`Scan` then returns false on
every later call): the rounds for the lines, then the one extra round that
`CallOneMoreTime` grants, in which `line` is empty.  The result is the final
value of the variables together with everything printed, or `none` when a panic
stopped the run.  The run in which the scanner stops at a line longer than its
buffer is `PerformTooLong`. -/
def Perform (cfg : Config) (slow : Int → Bool) (input : List String) : Option State :=
  (mainLoop cfg slow input initialState).bind (iteration cfg slow true "")

/-- The function `Perform` when the scanner stops at a line longer than its
buffer (`bufio.ErrTooLong`), `input` being the lines delivered before that line.
`Scan` returns false and `CallOneMoreTime` grants the extra round; the next call
of `Scan` returns true once more, with the buffer it still holds, so the body
runs a second time with `lastLine` set, again with the empty line; after that
both `Scan` and `CallOneMoreTime` return false. -/
def PerformTooLong (cfg : Config) (slow : Int → Bool) (input : List String) : Option State :=
  (Perform cfg slow input).bind (iteration cfg slow true "")

/-- What holds of the counters between two rounds of the loop.  With no block
open, `out` has not passed `inp`.  With a block of `b` lines open, the lines not
yet accounted for are the `b` lines of the block, the line that opened it, and
the lines that have continued it since: `b` for each of the `simBlockRepeats`
repetitions counted and one for each line of the repetition under way.  (For
`b = 1` every line after the opening one is counted as a repetition; for `b ≥ 2`
the repetition that the opening line starts is counted when its last line
arrives.) -/
def CountersOk (s : State) : Prop :=
  ((s.simLines.length : Int) = 0 → s.out ≤ s.inp) ∧
  (0 < (s.simLines.length : Int) →
    0 ≤ s.simBlockIndex ∧ s.simBlockIndex < (s.simLines.length : Int) ∧
    0 ≤ s.simBlockRepeats ∧
    ((s.simLines.length : Int) = 1 → s.inp = s.out + 2 + s.simBlockRepeats) ∧
    (2 ≤ (s.simLines.length : Int) →
      (s.simBlockIndex + 1 = (s.simLines.length : Int) →
        1 ≤ s.simBlockRepeats ∧
        s.inp = s.out + (s.simLines.length : Int)
          + s.simBlockRepeats * (s.simLines.length : Int)) ∧
      (s.simBlockIndex + 1 ≠ (s.simLines.length : Int) →
        s.inp = s.out + (s.simLines.length : Int) + 1
          + s.simBlockRepeats * (s.simLines.length : Int) + s.simBlockIndex)))

/-- No block is open and only plain lines have been printed. -/
def PlainOnly (s : State) : Prop :=
  s.simLines = [] ∧ ∀ p ∈ s.stdout, ∃ x, p = Printed.plain x

/-! ## The ring of recent lines -/

/-- The ring has its fifty slots and the write index points into it. -/
def RingOk (ll : List String) (li : Int) : Prop :=
  ll.length = 50 ∧ 0 ≤ li ∧ li < 50

/-- The ring holds the lines `recent` (the latest first): the line stored `d`
rounds ago, for `1 ≤ d ≤ 50`, is in slot `(li - d + MAX_LINES_TRACK) %
MAX_LINES_TRACK`. -/
def Holds (ll : List String) (li : Int) (recent : List String) : Prop :=
  ∀ d : Nat, 1 ≤ d → d ≤ 50 → d ≤ recent.length →
    at? ll (Int.tmod (li - (d : Int) + MAX_LINES_TRACK) MAX_LINES_TRACK) = recent[d - 1]?

/-- The lines that a printed output folds into collapsed blocks, counted from
the output: each footer accounts for the `b` highlighted lines printed right
before it and for `b` further lines for each repetition it reports. -/
def absorbedFrom : Nat → List Printed → Nat
  | _, [] => 0
  | b, Printed.block _ _ :: rest => absorbedFrom (b + 1) rest
  | b, Printed.footer r :: rest => b + b * r.toNat + absorbedFrom 0 rest
  | _, _ :: rest => absorbedFrom 0 rest

/-- The number of input lines absorbed into collapsed blocks, read off the
output. -/
def absorbedLines (printed : List Printed) : Nat := absorbedFrom 0 printed

/-- The configuration with the two thresholds given and debug mode off. -/
def debugOff (first keep : ℚ) : Config :=
  { FIRST_SIMILARITY_THRESHOLD := first, KEEP_SIMILARITY_THRESHOLD := keep, DEBUG := 0 }

/-- The clock of a run in which the two seconds never elapse. -/
def fast : Int → Bool := fun _ => false

/-- Fifty-one lines of three tokens each that differ in their last token. -/
def fiftyOneLines : List String :=
  (List.range 51).map (fun k => "2024-01-01 request " ++ toString k)

/-- Two similar requests and an unrelated line, twice. -/
def threeLineCycleTwice : List String :=
  ["1 GET /a ok", "2 GET /b ok", "3 disk is full", "1 GET /a ok", "2 GET /b ok", "3 disk is full"]

/-! ## Further measures and example inputs -/

/-- The lines of an input that the loop consumes: those of two bytes or more. -/
def consumed (input : List String) : List String :=
  input.filter (fun line => decide (2 ≤ len line))

/-- A false start: the third line repeats the first, the fourth does not
repeat the second. -/
def falseStartLines : List String :=
  ["1 alpha beta gamma", "1 delta eps zeta", "2 alpha beta gamma", "3 foo bar baz"]

/-- What holds of the variables between two rounds, `hist` being the lines
consumed so far, the latest first: the ring holds them, `inp` counts them, the
counters are related as `CountersOk` says, a block has at most 49 lines, and with
no block open at most 49 lines are not yet accounted for. -/
def WellFormed (s : State) (hist : List String) : Prop :=
  RingOk s.ll s.li ∧ Holds s.ll s.li hist ∧ s.inp = (hist.length : Int) ∧ 0 ≤ s.out ∧
  CountersOk s ∧ (s.simLines = [] → s.inp - s.out ≤ 49) ∧ s.simLines.length ≤ 49

end Uniqlog

namespace Uniqlog

/-! ## Facts about the library functions -/

theorem lev_le_max (xs ys : List Char) :
    levenshtein Levenshtein.defaultCost xs ys ≤ Nat.max xs.length ys.length := by
  induction xs generalizing ys with
  | nil =>
    induction ys with
    | nil => simp
    | cons y ys ih =>
      rw [levenshtein_nil_cons]
      simp only [Levenshtein.defaultCost, List.length_nil, List.length_cons] at ih ⊢
      have : Nat.max 0 ys.length = ys.length := Nat.max_eq_right (Nat.zero_le _)
      have h2 : Nat.max 0 (ys.length + 1) = ys.length + 1 := Nat.max_eq_right (Nat.zero_le _)
      omega
  | cons x xs ih =>
    cases ys with
    | nil =>
      rw [levenshtein_cons_nil]
      have h1 := ih []
      simp only [Levenshtein.defaultCost, List.length_nil, List.length_cons] at h1 ⊢
      have : Nat.max xs.length 0 = xs.length := Nat.max_eq_left (Nat.zero_le _)
      have h2 : Nat.max (xs.length + 1) 0 = xs.length + 1 := Nat.max_eq_left (Nat.zero_le _)
      omega
    | cons y ys =>
      rw [levenshtein_cons_cons]
      have h1 := ih ys
      have h3 : (Levenshtein.defaultCost : Levenshtein.Cost Char Char ℕ).substitute x y ≤ 1 := by
        simp only [Levenshtein.defaultCost]; split <;> omega
      have h4 : Nat.max (xs.length + 1) (ys.length + 1) = Nat.max xs.length ys.length + 1 := by
        simp only [Nat.max_def]; split <;> split <;> omega
      simp only [List.length_cons]
      rw [h4]
      refine le_trans (min_le_right _ _) (le_trans (min_le_right _ _) ?_)
      omega

theorem length_le_utf8Len (cs : List Char) : cs.length ≤ String.utf8Len cs := by
  induction cs with
  | nil => simp
  | cons c cs ih =>
    have := Char.utf8Size_pos c
    simp only [List.length_cons, String.utf8Len_cons]
    omega

theorem length_le_len (s : String) : (s.data.length : Int) ≤ len s := by
  have := length_le_utf8Len s.data
  unfold len
  have h : s.utf8ByteSize = String.utf8Len s.data := by
    cases s; rfl
  rw [h]; exact_mod_cast this

theorem max_eq (x y : Int) : max x y = Max.max x y := by
  unfold max; split
  · rw [max_eq_left]; omega
  · rw [max_eq_right]; omega

theorem Distance_nonneg (a b : String) : 0 ≤ Distance a b := by
  unfold Distance; exact Int.natCast_nonneg _

theorem Distance_le (a b : String) : Distance a b ≤ max (len a) (len b) := by
  have h := lev_le_max a.data b.data
  have ha := length_le_len a
  have hb := length_le_len b
  rw [max_eq]
  unfold Distance
  have h' : ((levenshtein Levenshtein.defaultCost a.data b.data : Nat) : Int)
      ≤ ((Nat.max a.data.length b.data.length : Nat) : Int) := by exact_mod_cast h
  refine le_trans h' ?_
  rcases Nat.le_total a.data.length b.data.length with hl | hl
  · have e : Nat.max a.data.length b.data.length = b.data.length := Nat.max_eq_right hl
    rw [e]; exact le_trans hb (le_max_right _ _)
  · have e : Nat.max a.data.length b.data.length = a.data.length := Nat.max_eq_left hl
    rw [e]; exact le_trans ha (le_max_left _ _)

theorem max_len_pos (a b : String) (h : a ≠ b) : 0 < max (len a) (len b) := by
  rw [max_eq]
  have ha := length_le_len a
  have hb := length_le_len b
  by_contra hc
  have h0 : Max.max (len a) (len b) ≤ 0 := by omega
  have h1 : len a ≤ 0 := le_trans (le_max_left _ _) h0
  have h2 : len b ≤ 0 := le_trans (le_max_right _ _) h0
  have ea : a.data.length = 0 := by omega
  have eb : b.data.length = 0 := by omega
  apply h
  cases a; cases b
  simp only [List.length_eq_zero] at ea eb
  simp [ea, eb]

/-! ## GetSimilarity -/

theorem at?_natCast {α : Type} (xs : List α) (i : Nat) : at? xs (i : Int) = xs[i]? := by
  unfold at?
  have : ¬ ((i : Int) < 0) := by omega
  simp [this]

theorem at?_of_nonneg {α : Type} (xs : List α) (i : Int) (h : 0 ≤ i) :
    at? xs i = xs[i.toNat]? := by
  unfold at?
  have : ¬ (i < 0) := by omega
  simp [this]

theorem countSame_bounds (prevTokens tokens : List String) (n c : Int) (fuel : Nat) :
    ∀ (i acc r : Int), countSame prevTokens tokens n c fuel i acc = some r →
      acc ≤ r ∧ r ≤ acc + fuel := by
  induction fuel with
  | zero =>
    intro i acc r h
    simp only [countSame, Option.some.injEq] at h
    subst h; simp
  | succ fuel ih =>
    intro i acc r h
    unfold countSame at h
    split at h
    · split at h
      · simp only [Option.some.injEq] at h
        subst h; constructor <;> push_cast <;> omega
      · simp only [Option.bind_eq_bind, Option.bind_eq_some] at h
        obtain ⟨t, _, p, _, h⟩ := h
        have := ih _ _ _ h
        split at this <;> (constructor <;> push_cast <;> omega)
    · simp only [Option.some.injEq] at h
      subst h; constructor <;> push_cast <;> omega

theorem countSame_eq (prevTokens tokens : List String) (fuel : Nat) :
    ∀ (i : Nat) (acc : Int), i + fuel + 1 = tokens.length →
      countSame prevTokens tokens (tokens.length : Int) ((tokens.length : Int) - 1) fuel
          (i : Int) acc
        = some (acc + (((List.range' i (min (tokens.length - 1) prevTokens.length - i)).filter
            (fun j => tokens[tokens.length - 1 - j]? ==
              prevTokens[prevTokens.length - 1 - j]?)).length : Nat)) := by
  induction fuel with
  | zero =>
    intro i acc h
    have : min (tokens.length - 1) prevTokens.length - i = 0 := by omega
    simp [countSame, this]
  | succ fuel ih =>
    intro i acc h
    unfold countSame
    have h1 : (i : Int) < (tokens.length : Int) - 1 := by omega
    rw [if_pos h1]
    by_cases hm : (i : Int) ≥ (prevTokens.length : Int)
    · rw [if_pos hm]
      have : min (tokens.length - 1) prevTokens.length - i = 0 := by omega
      simp [this]
    · rw [if_neg hm]
      have e1 : (tokens.length : Int) - 1 - (i : Int) = ((tokens.length - 1 - i : Nat) : Int) := by
        omega
      have e2 : (prevTokens.length : Int) - 1 - (i : Int)
          = ((prevTokens.length - 1 - i : Nat) : Int) := by omega
      have l1 : tokens.length - 1 - i < tokens.length := by omega
      have l2 : prevTokens.length - 1 - i < prevTokens.length := by omega
      rw [e1, e2, at?_natCast, at?_natCast, List.getElem?_eq_getElem l1,
        List.getElem?_eq_getElem l2]
      simp only [Option.bind_eq_bind, Option.some_bind]
      have e3 : ((i : Int) + 1) = ((i + 1 : Nat) : Int) := by push_cast; rfl
      rw [e3, ih (i + 1) _ (by omega)]
      have e4 : min (tokens.length - 1) prevTokens.length - i
          = (min (tokens.length - 1) prevTokens.length - (i + 1)) + 1 := by omega
      rw [e4, List.range'_succ, List.filter_cons]
      simp only [List.getElem?_eq_getElem l1, List.getElem?_eq_getElem l2]
      by_cases heq : tokens[tokens.length - 1 - i] = prevTokens[prevTokens.length - 1 - i]
      · simp only [heq, if_true, beq_self_eq_true, List.length_cons]
        congr 1; push_cast; ring
      · have : (some tokens[tokens.length - 1 - i] == some prevTokens[prevTokens.length - 1 - i])
            = false := by simp [heq]
        simp only [heq, if_false, this]
        simp

theorem GetSimilarity_long (prevTokens tokens : List String) (h : 3 ≤ tokens.length) :
    GetSimilarity prevTokens tokens
      = some ((tailMatches prevTokens tokens : ℚ) / ((tokens.length : ℚ) - 1)) := by
  unfold GetSimilarity
  have h1 : ¬ ((tokens.length : Int) < 1) := by omega
  have h3 : ¬ ((tokens.length : Int) < 3) := by omega
  simp only [h1, h3, if_false]
  have e : ((tokens.length : Int) - 1).toNat = tokens.length - 1 := by omega
  have := countSame_eq prevTokens tokens (tokens.length - 1) 0 0 (by omega)
  simp only [Nat.cast_zero, Nat.sub_zero, zero_add] at this
  rw [e, this]
  simp only [Option.bind_eq_bind, Option.some_bind, List.range_eq_range', tailMatches]
  congr 1
  push_cast
  rfl

theorem getElem?_cons_tail {α : Type} (x : α) (l : List α) (k : Nat) (hk : 1 ≤ k) :
    (x :: l.tail)[k]? = l[k]? := by
  cases l with
  | nil =>
    obtain ⟨k, rfl⟩ : ∃ j, k = j + 1 := ⟨k - 1, by omega⟩
    simp
  | cons a t =>
    obtain ⟨k, rfl⟩ : ∃ j, k = j + 1 := ⟨k - 1, by omega⟩
    simp

theorem tailMatches_first (prevTokens tokens : List String) (x : String)
    (h : 1 ≤ tokens.length) :
    tailMatches prevTokens (x :: tokens.tail) = tailMatches prevTokens tokens := by
  have hl : (x :: tokens.tail).length = tokens.length := by
    simp only [List.length_cons, List.length_tail]; omega
  unfold tailMatches
  rw [hl]
  congr 1
  apply List.filter_congr
  intro j hj
  rw [List.mem_range] at hj
  rw [getElem?_cons_tail x tokens _ (by omega)]

theorem tailMatches_same_tail (prevTokens tokens : List String)
    (hl : prevTokens.length = tokens.length) (ht : prevTokens.tail = tokens.tail) :
    tailMatches prevTokens tokens = tokens.length - 1 := by
  unfold tailMatches
  rw [hl]
  have hmin : min (tokens.length - 1) tokens.length = tokens.length - 1 := by omega
  rw [hmin]
  have : (List.range (tokens.length - 1)).filter
      (fun i => tokens[tokens.length - 1 - i]? == prevTokens[tokens.length - 1 - i]?)
      = List.range (tokens.length - 1) := by
    rw [List.filter_eq_self]
    intro j hj
    rw [List.mem_range] at hj
    have a1 := getElem?_cons_tail "" tokens (tokens.length - 1 - j) (by omega)
    have a2 := getElem?_cons_tail "" prevTokens (tokens.length - 1 - j) (by omega)
    rw [← a1, ← a2, ht]
    simp
  rw [this, List.length_range]

theorem GetSimilarity_range (prevTokens tokens : List String) (r : ℚ)
    (h : GetSimilarity prevTokens tokens = some r) : 0 ≤ r ∧ r ≤ 1 := by
  unfold GetSimilarity at h
  simp only at h
  split at h
  · simp only [Option.some.injEq] at h
    subst h; norm_num
  · split at h
    · simp only [Option.bind_eq_bind, Option.bind_eq_some] at h
      obtain ⟨p, _, t, _, h⟩ := h
      split at h
      · simp only [Option.some.injEq] at h
        subst h; norm_num
      · rename_i hne
        split at h
        · simp only [Option.some.injEq] at h
          subst h; norm_num
        · split at h
          · simp only [Option.some.injEq] at h
            subst h; norm_num
          · simp only [Option.some.injEq] at h
            have hpos : (0 : ℚ) < ((max (len p) (len t) : Int) : ℚ) := by
              exact_mod_cast max_len_pos p t hne
            have hd0 : (0 : ℚ) ≤ ((Distance p t : Int) : ℚ) := by
              exact_mod_cast Distance_nonneg p t
            have hd1 : ((Distance p t : Int) : ℚ) ≤ ((max (len p) (len t) : Int) : ℚ) := by
              exact_mod_cast Distance_le p t
            have q0 : 0 ≤ ((Distance p t : Int) : ℚ) / ((max (len p) (len t) : Int) : ℚ) :=
              div_nonneg hd0 (le_of_lt hpos)
            have q1 : ((Distance p t : Int) : ℚ) / ((max (len p) (len t) : Int) : ℚ) ≤ 1 :=
              (div_le_one hpos).mpr hd1
            subst h
            constructor <;> linarith
    · rename_i h1 h3
      simp only [Option.bind_eq_bind, Option.bind_eq_some, Option.some.injEq] at h
      obtain ⟨same, hs, h⟩ := h
      have hb := countSame_bounds _ _ _ _ _ _ _ _ hs
      have hc : (0 : Int) < (tokens.length : Int) - 1 := by omega
      have hcq : (0 : ℚ) < (((tokens.length : Int) - 1 : Int) : ℚ) := by exact_mod_cast hc
      have e : ((((tokens.length : Int) - 1).toNat : Nat) : Int) = (tokens.length : Int) - 1 := by
        omega
      have s0 : (0 : ℚ) ≤ (same : ℚ) := by exact_mod_cast hb.1
      have s1 : (same : ℚ) ≤ (((tokens.length : Int) - 1 : Int) : ℚ) := by
        have := hb.2
        rw [e] at this
        exact_mod_cast (by omega : same ≤ (tokens.length : Int) - 1)
      subst h
      exact ⟨div_nonneg s0 (le_of_lt hcq), (div_le_one hcq).mpr s1⟩

/-- C8: whenever `GetSimilarity` returns a value `r`, that value lies between 0
and 1; and in the edit-distance branch, which is only reached for two different
tokens, the divisor `max(len(a), len(b))` is positive and the distance lies
between 0 and the divisor, so the quotient is defined and `1 - quotient` is not
negative. -/
theorem C8_similarity_range (prevTokens tokens : List String) (r : ℚ)
    (h : GetSimilarity prevTokens tokens = some r) :
    (0 ≤ r ∧ r ≤ 1) ∧
    ∀ a b : String, a ≠ b →
      0 < max (len a) (len b) ∧ 0 ≤ Distance a b ∧ Distance a b ≤ max (len a) (len b) :=
  ⟨GetSimilarity_range prevTokens tokens r h,
    fun a b hab => ⟨max_len_pos a b hab, Distance_nonneg a b, Distance_le a b⟩⟩

theorem C8_similarity_range_witness :
    (0 ≤ (4 / 7 : ℚ) ∧ (4 / 7 : ℚ) ≤ 1) ∧
    ∀ a b : String, a ≠ b →
      0 < max (len a) (len b) ∧ 0 ≤ Distance a b ∧ Distance a b ≤ max (len a) (len b) :=
  C8_similarity_range ["kitten"] ["sitting"] (4 / 7) (by decide!)

/-- C9: for `curTokens` of length `n ≥ 3`, `GetSimilarity` returns the number of
offsets `i < min (n - 1) m` with `curTokens[n-1-i] = prevTokens[m-1-i]`, divided
by `n - 1`; the result does not depend on the first token of `curTokens`; and it
is 1 when the two sequences have the same length and the same tokens after the
first. -/
theorem C9_long_similarity_is_tail_ratio (prevTokens curTokens : List String)
    (h : 3 ≤ curTokens.length) :
    GetSimilarity prevTokens curTokens
      = some ((tailMatches prevTokens curTokens : ℚ) / ((curTokens.length : ℚ) - 1)) ∧
    (∀ x : String,
      GetSimilarity prevTokens (x :: curTokens.tail) = GetSimilarity prevTokens curTokens) ∧
    (prevTokens.length = curTokens.length → prevTokens.tail = curTokens.tail →
      GetSimilarity prevTokens curTokens = some 1) := by
  refine ⟨GetSimilarity_long prevTokens curTokens h, ?_, ?_⟩
  · intro x
    have hl : (x :: curTokens.tail).length = curTokens.length := by
      simp only [List.length_cons, List.length_tail]; omega
    rw [GetSimilarity_long prevTokens curTokens h,
      GetSimilarity_long prevTokens (x :: curTokens.tail) (by omega),
      tailMatches_first prevTokens curTokens x (by omega), hl]
  · intro hl ht
    rw [GetSimilarity_long prevTokens curTokens h, tailMatches_same_tail _ _ hl ht]
    have h1 : ((curTokens.length - 1 : Nat) : ℚ) = (curTokens.length : ℚ) - 1 := by
      rw [Nat.cast_sub (by omega)]; simp
    have h2 : (curTokens.length : ℚ) - 1 ≠ 0 := by
      have : (3 : ℚ) ≤ (curTokens.length : ℚ) := by exact_mod_cast h
      linarith
    rw [h1, div_self h2]

theorem C9_long_similarity_is_tail_ratio_witness :
    GetSimilarity ["A", "connecting", "to", "host1"] ["B", "connecting", "to", "host2"]
      = some ((tailMatches ["A", "connecting", "to", "host1"]
          ["B", "connecting", "to", "host2"] : ℚ)
        / (((["B", "connecting", "to", "host2"] : List String).length : ℚ) - 1)) :=
  (C9_long_similarity_is_tail_ratio ["A", "connecting", "to", "host1"]
    ["B", "connecting", "to", "host2"] (by decide)).1

/-- C10: the code at the failing inputs.  The previous token `abc` matches the
hexadecimal pattern and the current token `xyz` does not, and `GetSimilarity`
returns 0.9 where the rule of the claim gives `1 - 3/3 = 0`; the previous token
`GET` is a method name and the current token `xyz` is not, and `GetSimilarity`
returns 0.9 where the rule of the claim gives 0; the previous token `xPUTx` only
contains a method name, and is still taken for one. -/
theorem C10_short_similarity_tests_previous_token_only :
    GetSimilarity ["abc"] ["xyz"] = some (9 / 10) ∧ shortSimilaritySpec "abc" "xyz" = 0 ∧
    GetSimilarity ["GET"] ["xyz"] = some (9 / 10) ∧ shortSimilaritySpec "GET" "xyz" = 0 ∧
    GetSimilarity ["t", "xPUTx"] ["t", "xPOSTx"] = some (9 / 10) ∧
    shortSimilaritySpec "xPUTx" "xPOSTx" = 2 / 3 := by
  decide!

end Uniqlog

namespace Uniqlog

/-! ## The parts of one round of `Perform` -/

theorem collect_length {α : Type} (f : Int → Option α) :
    ∀ (n : Nat) (i : Int) (xs : List α), collect f n i = some xs → xs.length = n := by
  intro n
  induction n with
  | zero =>
    intro i xs h
    simp only [collect, Option.some.injEq] at h
    subst h; rfl
  | succ n ih =>
    intro i xs h
    simp only [collect, Option.bind_eq_bind, Option.bind_eq_some, Option.some.injEq] at h
    obtain ⟨x, _, ys, hys, rfl⟩ := h
    simp [ih _ _ hys]

theorem printBlock_eq (s s' : State) (h : printBlock s = some s') :
    ∃ lines : List String, lines.length = s.simBlockLines.toNat ∧
      s' = { s with
        simBlockRepeats := if s.simBlockLines = 1 then s.simBlockRepeats + 1
          else s.simBlockRepeats
        stdout := s.stdout ++ lines.map (Printed.block
            (if s.simBlockLines = 1 then "" else ColorBgDark)) ++
          [Printed.footer (if s.simBlockLines = 1 then s.simBlockRepeats + 1
            else s.simBlockRepeats)]
        out := s.out + (lines.length : Int) + s.simBlockLines *
          (if s.simBlockLines = 1 then s.simBlockRepeats + 1 else s.simBlockRepeats) } := by
  unfold printBlock at h
  by_cases h1 : s.simBlockLines = 1
  · simp only [h1, beq_self_eq_true, if_true, Option.bind_eq_bind, Option.bind_eq_some,
      Option.some.injEq] at h
    obtain ⟨lines, hl, rfl⟩ := h
    refine ⟨lines, ?_, ?_⟩
    · rw [collect_length _ _ _ _ hl, h1]
    · simp [h1]
  · have hb : (s.simBlockLines == 1) = false := by simpa using h1
    simp only [hb, if_false, Option.bind_eq_bind, Option.bind_eq_some,
      Option.some.injEq, Bool.false_eq_true] at h
    obtain ⟨lines, hl, rfl⟩ := h
    refine ⟨lines, ?_, ?_⟩
    · rw [collect_length _ _ _ _ hl]
    · simp [h1]

theorem falseStart_eq (cfg : Config) (line : String) (sim : ℚ) (s s' : State)
    (h : falseStart cfg line sim s = some s') :
    ∃ printed : List Printed,
      s' = { s with
        stdout := s.stdout ++ printed
        out := s.out + (s.simBlockIndex.toNat : Int) +
          (if cfg.DEBUG > 0 then 1 + ((s.simBlockLines - s.simBlockIndex).toNat : Int) else 0) } ∧
      (cfg.DEBUG ≤ 0 → ∀ p ∈ printed, ∃ x, p = Printed.plain x) := by
  unfold falseStart at h
  by_cases hd : cfg.DEBUG > 0
  · simp only [hd, if_true, Option.bind_eq_bind, Option.bind_eq_some, Option.some.injEq] at h
    obtain ⟨diffs, hdiffs, t, _, rest, hrest, rfl⟩ := h
    have l1 := collect_length _ _ _ _ hdiffs
    have l2 := collect_length _ _ _ _ hrest
    refine ⟨[Printed.failedAt s.simBlockIndex s.simBlockLines sim] ++ diffs ++
      [Printed.mismatchLine line, Printed.mismatchTemplate t] ++ rest ++ [Printed.mismatchEnd],
      ?_, ?_⟩
    · simp only [l1, l2, State.mk.injEq, List.append_assoc, true_and, and_true]
      rw [if_pos hd]; omega
    · intro hc; omega
  · simp only [hd, if_false, Option.bind_eq_bind, Option.bind_eq_some, Option.some.injEq] at h
    obtain ⟨diffs, hdiffs, rfl⟩ := h
    have l1 := collect_length _ _ _ _ hdiffs
    refine ⟨diffs, ?_, ?_⟩
    · simp only [l1, State.mk.injEq, true_and, and_true]
      rw [if_neg hd]; omega
    · intro _ p hp
      clear l1
      generalize hn : s.simBlockIndex.toNat = n at hdiffs
      generalize (0 : Int) = i0 at hdiffs
      clear hn
      induction n generalizing i0 diffs with
      | zero =>
        simp only [collect, Option.some.injEq] at hdiffs
        subst hdiffs; simp at hp
      | succ n ih =>
        simp only [collect, Option.bind_eq_bind, Option.bind_eq_some, Option.some.injEq] at hdiffs
        obtain ⟨x, ⟨t, _, hh, _, hx⟩, ys, hys, rfl⟩ := hdiffs
        rcases List.mem_cons.mp hp with rfl | hp'
        · exact ⟨_, hx.symm⟩
        · exact ih ys hp' _ hys

theorem checkBlock_eq (cfg : Config) (slow : Int → Bool) (line : String) (tokens : List String)
    (s s' : State) (h : checkBlock cfg slow line tokens s = some s') :
    ∃ (t : String) (sim : ℚ),
      at? s.simLines (Int.tmod (s.simBlockIndex + 1) s.simBlockLines) = some t ∧
      GetSimilarity (Fields t) tokens = some sim ∧
      ((sim > cfg.KEEP_SIMILARITY_THRESHOLD ∧
          s' = { s with
            simBlockIndex := Int.tmod (s.simBlockIndex + 1) s.simBlockLines
            simBlockRepeats :=
              if Int.tmod (s.simBlockIndex + 1) s.simBlockLines + 1 ≥ s.simBlockLines
              then s.simBlockRepeats + 1 else s.simBlockRepeats
            stdout := s.stdout ++
              if Int.tmod (s.simBlockIndex + 1) s.simBlockLines + 1 ≥ s.simBlockLines
                ∧ slow s.inp = true
              then [Printed.progress (s.simBlockRepeats + 1)] else [] }) ∨
        (¬ sim > cfg.KEEP_SIMILARITY_THRESHOLD ∧ s.simBlockRepeats > 0 ∧
          ∃ s1, printBlock { s with
              simBlockIndex := Int.tmod (s.simBlockIndex + 1) s.simBlockLines } = some s1 ∧
            s' = { s1 with simBlockLines := 0, simLines := [] }) ∨
        (¬ sim > cfg.KEEP_SIMILARITY_THRESHOLD ∧ ¬ s.simBlockRepeats > 0 ∧
          ∃ s1, falseStart cfg line sim { s with
              simBlockIndex := Int.tmod (s.simBlockIndex + 1) s.simBlockLines } = some s1 ∧
            s' = { s1 with simBlockLines := 0, simLines := [] })) := by
  unfold checkBlock at h
  simp only [Option.bind_eq_bind, Option.bind_eq_some] at h
  obtain ⟨t, ht, sim, hsim, h⟩ := h
  refine ⟨t, sim, ht, hsim, ?_⟩
  by_cases hk : sim > cfg.KEEP_SIMILARITY_THRESHOLD
  · left
    refine ⟨hk, ?_⟩
    rw [if_pos hk] at h
    by_cases hw : Int.tmod (s.simBlockIndex + 1) s.simBlockLines + 1 ≥ s.simBlockLines
    · rw [if_pos hw] at h
      by_cases hs : slow s.inp = true
      · simp only [hs, if_true, Option.some.injEq] at h
        subst h; simp [hw, hs]
      · have hs' : slow s.inp = false := by simpa using hs
        simp only [hs', Bool.false_eq_true, if_false, Option.some.injEq] at h
        subst h; simp [hw, hs']
    · rw [if_neg hw] at h
      have h := Option.some.inj h
      subst h; simp [hw]
  · right
    rw [if_neg hk] at h
    simp only [Option.bind_eq_bind, Option.bind_eq_some, Option.some.injEq] at h
    obtain ⟨s1, hs1, rfl⟩ := h
    by_cases hr : s.simBlockRepeats > 0
    · left
      rw [if_pos hr] at hs1
      exact ⟨hk, hr, s1, hs1, rfl⟩
    · right
      rw [if_neg hr] at hs1
      exact ⟨hk, hr, s1, hs1, rfl⟩

theorem collect_map_plain (f : Int → Option String) :
    ∀ (n : Nat) (i : Int) (xs : List Printed),
      collect (fun j => (f j).map Printed.plain) n i = some xs →
      ∀ p ∈ xs, ∃ x, p = Printed.plain x := by
  intro n
  induction n with
  | zero =>
    intro i xs h p hp
    simp only [collect, Option.some.injEq] at h
    subst h; simp at hp
  | succ n ih =>
    intro i xs h p hp
    simp only [collect, Option.bind_eq_bind, Option.bind_eq_some, Option.some.injEq,
      Option.map_eq_some'] at h
    obtain ⟨x, ⟨a, _, rfl⟩, ys, hys, rfl⟩ := h
    rcases List.mem_cons.mp hp with rfl | hp'
    · exact ⟨a, rfl⟩
    · exact ih _ _ hys p hp'

theorem establish_eq (unscanned i : Int) (s s' : State)
    (h : establish unscanned i s = some s') :
    ∃ (flushed : List Printed) (simLines : List String),
      flushed.length = (unscanned - (i + 1)).toNat ∧
      simLines.length = (i + 1).toNat ∧ 0 ≤ i + 1 ∧
      (∀ p ∈ flushed, ∃ x, p = Printed.plain x) ∧
      collect (fun j => at? s.ll
        (Int.tmod (s.li - (i + 1) + j + MAX_LINES_TRACK) MAX_LINES_TRACK)) (i + 1).toNat 0
        = some simLines ∧
      collect (fun j => (at? s.ll
        (Int.tmod (s.li - unscanned + j + MAX_LINES_TRACK) MAX_LINES_TRACK)).map Printed.plain)
        (unscanned - (i + 1)).toNat 0 = some flushed ∧
      s' = { s with
        simBlockLines := i + 1
        stdout := s.stdout ++ flushed
        out := s.out + (flushed.length : Int)
        simBlockRepeats := 0
        simBlockIndex := 0
        simLines := simLines } := by
  unfold establish at h
  simp only [Option.bind_eq_bind, Option.bind_eq_some] at h
  obtain ⟨flushed, hf, h⟩ := h
  split at h
  · exact absurd h (by simp)
  · rename_i hneg
    simp only [Option.bind_eq_bind, Option.bind_eq_some, Option.some.injEq] at h
    obtain ⟨simLines, hsl, rfl⟩ := h
    refine ⟨flushed, simLines, collect_length _ _ _ _ hf, collect_length _ _ _ _ hsl, ?_,
      collect_map_plain _ _ _ _ hf, hsl, hf, rfl⟩
    simpa using hneg

theorem scanLoop_eq (cfg : Config) (tokens : List String) (unscanned : Int) (s s' : State) :
    ∀ (fuel : Nat) (i : Int), 0 ≤ i →
      scanLoop cfg tokens unscanned s fuel i = some s' →
      s' = s ∨ ∃ j : Int, i ≤ j ∧ j < unscanned ∧ j < MAX_LINES_TRACK ∧
        establish unscanned j s = some s' := by
  intro fuel
  induction fuel with
  | zero =>
    intro i _ h
    simp only [scanLoop, Option.some.injEq] at h
    exact Or.inl h.symm
  | succ fuel ih =>
    intro i hi h
    unfold scanLoop at h
    split at h
    · rename_i h50
      split at h
      · simp only [Option.some.injEq] at h
        exact Or.inl h.symm
      · rename_i hu
        simp only [Option.bind_eq_bind, Option.bind_eq_some] at h
        obtain ⟨hl, _, sim, _, h⟩ := h
        split at h
        · exact Or.inr ⟨i, le_refl _, by omega, h50, h⟩
        · rcases ih (i + 1) (by omega) h with h' | ⟨j, hj1, hj2, hj3, hj4⟩
          · exact Or.inl h'
          · exact Or.inr ⟨j, by omega, hj2, hj3, hj4⟩
    · simp only [Option.some.injEq] at h
      exact Or.inl h.symm

theorem updateBuffer_eq (line : String) (s s' : State) (h : updateBuffer line s = some s') :
    ∃ (flushed : List Printed) (ll : List String),
      ((flushed = [] ∧ ¬ (s.out + MAX_LINES_TRACK ≤ s.inp ∧ s.simBlockLines = 0)) ∨
        ((∃ x, at? s.ll s.li = some x ∧ flushed = [Printed.plain x]) ∧
          s.out + MAX_LINES_TRACK ≤ s.inp ∧ s.simBlockLines = 0)) ∧
      setAt? s.ll s.li line = some ll ∧
      s' = { s with
        stdout := s.stdout ++ flushed
        out := s.out + (flushed.length : Int)
        ll := ll
        li := Int.tmod (s.li + 1) MAX_LINES_TRACK } := by
  unfold updateBuffer at h
  by_cases hc : s.out + MAX_LINES_TRACK ≤ s.inp ∧ s.simBlockLines = 0
  · rw [if_pos hc] at h
    simp only [Option.bind_eq_bind, Option.bind_eq_some, Option.some.injEq,
      Option.map_eq_some'] at h
    obtain ⟨s1, ⟨x, hx, rfl⟩, ll, hll, rfl⟩ := h
    exact ⟨[Printed.plain x], ll, Or.inr ⟨⟨x, hx, rfl⟩, hc⟩, hll, by simp⟩
  · rw [if_neg hc] at h
    simp only [Option.bind_eq_bind, Option.bind_eq_some, Option.some.injEq] at h
    obtain ⟨s1, rfl, ll, hll, rfl⟩ := h
    exact ⟨[], ll, Or.inl ⟨rfl, hc⟩, hll, by simp⟩

theorem flushLoop_eq : ∀ (fuel : Nat) (idx : Int) (s s' : State),
    flushLoop fuel idx s = some s' → fuel = (s.inp - s.out).toNat →
    ∃ printed : List Printed, printed.length = fuel ∧
      (∀ p ∈ printed, ∃ x, p = Printed.plain x) ∧
      s' = { s with stdout := s.stdout ++ printed, out := s.out + (fuel : Int) } := by
  intro fuel
  induction fuel with
  | zero =>
    intro idx s s' h _
    simp only [flushLoop, Option.some.injEq] at h
    subst h
    exact ⟨[], rfl, by simp, by simp⟩
  | succ fuel ih =>
    intro idx s s' h hle
    unfold flushLoop at h
    have hlt : s.out < s.inp := by omega
    rw [if_pos hlt] at h
    simp only [Option.bind_eq_bind, Option.bind_eq_some] at h
    obtain ⟨x, _, h⟩ := h
    obtain ⟨printed, hp1, hp2, rfl⟩ := ih _ _ _ h
      (by show fuel = (s.inp - (s.out + 1)).toNat; omega)
    refine ⟨Printed.plain x :: printed, by simp [hp1], ?_, ?_⟩
    · intro p hp
      rcases List.mem_cons.mp hp with rfl | hp'
      · exact ⟨x, rfl⟩
      · exact hp2 p hp'
    · simp only [List.append_assoc, List.singleton_append, State.mk.injEq, true_and, and_true]
      push_cast; omega

theorem flushRemaining_eq (s s' : State) (h : flushRemaining s = some s') :
    ∃ printed : List Printed, printed.length = (s.inp - s.out).toNat ∧
      (∀ p ∈ printed, ∃ x, p = Printed.plain x) ∧
      s' = { s with stdout := s.stdout ++ printed,
                    out := s.out + ((s.inp - s.out).toNat : Int) } := by
  unfold flushRemaining at h
  obtain ⟨printed, h1, h2, h3⟩ := flushLoop_eq _ _ _ _ h rfl
  exact ⟨printed, h1, h2, h3⟩

theorem iteration_eq (cfg : Config) (slow : Int → Bool) (lastLine : Bool) (line : String)
    (s s' : State) (h : iteration cfg slow lastLine line s = some s') :
    ∃ s1 s2 s3 : State,
      (if (s.simLines.length : Int) > 0 then
          checkBlock cfg slow line (Fields line)
            { s with inp := s.inp + 1, simBlockLines := (s.simLines.length : Int) }
        else some { s with inp := s.inp + 1, simBlockLines := (s.simLines.length : Int) })
        = some s1 ∧
      (if s1.simBlockLines = 0 then lookForSimilarities cfg (Fields line) s1 else some s1)
        = some s2 ∧
      updateBuffer line s2 = some s3 ∧
      (if lastLine = true then flushRemaining s3 else some s3) = some s' := by
  unfold iteration at h
  simp only [Option.bind_eq_bind, Option.bind_eq_some] at h
  obtain ⟨s1, h1, s2, h2, s3, h3, h4⟩ := h
  exact ⟨s1, s2, s3, h1, h2, h3, h4⟩

end Uniqlog

namespace Uniqlog

/-! ## The counters -/

theorem tmod_succ (idx b : Int) (h0 : 0 ≤ idx) (hb : idx < b) :
    Int.tmod (idx + 1) b = if idx + 1 = b then 0 else idx + 1 := by
  rw [Int.tmod_eq_emod (by omega) (by omega)]
  split
  · rename_i h; rw [h]; exact Int.emod_self
  · exact Int.emod_eq_of_lt (by omega) (by omega)

theorem idle_rest (cfg : Config) (line : String) (tokens : List String) (s1 s2 s3 : State)
    (hl : s1.simLines = []) (hb : s1.simBlockLines = 0) (ho : s1.out ≤ s1.inp)
    (h2 : lookForSimilarities cfg tokens s1 = some s2)
    (h3 : updateBuffer line s2 = some s3) :
    CountersOk s3 ∧ s3.inp = s1.inp := by
  unfold lookForSimilarities at h2
  obtain ⟨flushed, ll, hf, _, rfl⟩ := updateBuffer_eq _ _ _ h3
  rcases scanLoop_eq _ _ _ _ _ _ _ (le_refl 0) h2 with rfl | ⟨j, hj0, hju, _, hj⟩
  · refine ⟨?_, rfl⟩
    unfold CountersOk
    simp only [hl, List.length_nil, Nat.cast_zero, lt_self_iff_false, false_implies, and_true,
      true_implies]
    rcases hf with ⟨rfl, _⟩ | ⟨⟨x, _, rfl⟩, hc, _⟩
    · simpa using ho
    · simp only [List.length_singleton, Nat.cast_one]
      unfold MAX_LINES_TRACK at hc; omega
  · obtain ⟨fl, sl, hfl, hsl, hj1, _, _, _, rfl⟩ := establish_eq _ _ _ _ hj
    have hflushed : flushed = [] := by
      rcases hf with ⟨rfl, _⟩ | ⟨_, _, hc⟩
      · rfl
      · simp only at hc; omega
    subst hflushed
    refine ⟨?_, rfl⟩
    unfold CountersOk
    simp only [List.length_nil, Nat.cast_zero, add_zero, hsl, hfl]
    have e1 : (((j + 1).toNat : Nat) : Int) = j + 1 := by omega
    have e2 : (((s1.inp - s1.out - 1 - (j + 1)).toNat : Nat) : Int)
        = s1.inp - s1.out - 1 - (j + 1) := by omega
    rw [e1, e2]
    refine ⟨fun h => by omega, fun _ => ⟨le_refl 0, by omega, le_refl 0, fun _ => by omega,
      fun _ => ⟨fun h => by omega, fun _ => by simp only [zero_mul]; omega⟩⟩⟩

theorem round_core (cfg : Config) (slow : Int → Bool) (line : String) (s s1 s2 s3 : State)
    (hinv : CountersOk s)
    (h1 : (if (s.simLines.length : Int) > 0 then
          checkBlock cfg slow line (Fields line)
            { s with inp := s.inp + 1, simBlockLines := (s.simLines.length : Int) }
        else some { s with inp := s.inp + 1, simBlockLines := (s.simLines.length : Int) })
        = some s1)
    (h2 : (if s1.simBlockLines = 0 then lookForSimilarities cfg (Fields line) s1 else some s1)
        = some s2)
    (h3 : updateBuffer line s2 = some s3) :
    CountersOk s3 ∧ s3.inp = s.inp + 1 := by
  by_cases hb : (s.simLines.length : Int) > 0
  · rw [if_pos hb] at h1
    obtain ⟨t, sim, _, _, hcase⟩ := checkBlock_eq _ _ _ _ _ _ h1
    simp only at hcase
    obtain ⟨hi0, hi1, hr0, hone, htwo⟩ := hinv.2 hb
    have htm := tmod_succ s.simBlockIndex _ hi0 hi1
    rcases hcase with ⟨_, rfl⟩ | ⟨_, hr, s1', hp, rfl⟩ | ⟨_, hr, s1', hfs, rfl⟩
    · simp only at h2
      rw [if_neg (by omega)] at h2
      have h2 := Option.some.inj h2
      subst h2
      obtain ⟨flushed, ll, hf, _, rfl⟩ := updateBuffer_eq _ _ _ h3
      have hflushed : flushed = [] := by
        rcases hf with ⟨rfl, _⟩ | ⟨_, _, hc⟩
        · rfl
        · simp only at hc; omega
      subst hflushed
      refine ⟨?_, rfl⟩
      unfold CountersOk
      simp only [List.length_nil, Nat.cast_zero, add_zero]
      rw [htm]
      have e := add_mul s.simBlockRepeats 1 (s.simLines.length : Int)
      rw [one_mul] at e
      refine ⟨fun h => by omega, fun _ => ?_⟩
      by_cases hw : s.simBlockIndex + 1 = (s.simLines.length : Int)
      · simp only [hw, if_true]
        by_cases hb1 : (s.simLines.length : Int) = 1
        · have h11 := hone hb1
          have hge : (0 : Int) + 1 ≥ (s.simLines.length : Int) := by omega
          rw [if_pos hge]
          refine ⟨le_refl 0, by omega, by omega, fun _ => by omega, fun h => by omega⟩
        · have h22 := (htwo (by omega)).1 hw
          have hge : ¬ ((0 : Int) + 1 ≥ (s.simLines.length : Int)) := by omega
          rw [if_neg hge]
          refine ⟨le_refl 0, by omega, by omega, fun h => by omega, fun _ =>
            ⟨fun h => by omega, fun _ => by omega⟩⟩
      · simp only [hw, if_false]
        have h22 := (htwo (by omega)).2 hw
        by_cases hw2 : s.simBlockIndex + 1 + 1 ≥ (s.simLines.length : Int)
        · rw [if_pos hw2]
          refine ⟨by omega, by omega, by omega, fun h => by omega, fun _ =>
            ⟨fun _ => ⟨by omega, by rw [e]; omega⟩, fun h => by omega⟩⟩
        · rw [if_neg hw2]
          refine ⟨by omega, by omega, by omega, fun h => by omega, fun _ =>
            ⟨fun h => by omega, fun _ => by omega⟩⟩
    · obtain ⟨lines, hlines, rfl⟩ := printBlock_eq _ _ hp
      simp only [if_true] at h2
      have hres := idle_rest cfg line (Fields line) _ s2 s3 rfl rfl ?_ h2 h3
      · exact ⟨hres.1, hres.2⟩
      · simp only [hlines]
        have e1 : (((s.simLines.length : Int).toNat : Nat) : Int) = (s.simLines.length : Int) := by
          omega
        rw [e1]
        by_cases hb1 : (s.simLines.length : Int) = 1
        · have h11 := hone hb1
          simp only [hb1, if_true, one_mul]
          omega
        · simp only [hb1, if_false]
          have e2 := mul_comm (s.simLines.length : Int) s.simBlockRepeats
          rw [e2]
          by_cases hw : s.simBlockIndex + 1 = (s.simLines.length : Int)
          · have h22 := (htwo (by omega)).1 hw
            omega
          · have h22 := (htwo (by omega)).2 hw
            omega
    · obtain ⟨printed, rfl, _⟩ := falseStart_eq _ _ _ _ _ hfs
      simp only [if_true] at h2
      have hres := idle_rest cfg line (Fields line) _ s2 s3 rfl rfl ?_ h2 h3
      · exact ⟨hres.1, hres.2⟩
      · simp only
        rw [htm]
        have hr' : s.simBlockRepeats = 0 := by omega
        by_cases hb1 : (s.simLines.length : Int) = 1
        · have h11 := hone hb1
          have hw : s.simBlockIndex + 1 = (s.simLines.length : Int) := by omega
          simp only [hw, if_true, hb1]
          split <;> simp <;> omega
        · have hw : s.simBlockIndex + 1 ≠ (s.simLines.length : Int) := by
            intro hw
            have := (htwo (by omega)).1 hw
            omega
          have h22 := (htwo (by omega)).2 hw
          rw [hr', zero_mul] at h22
          simp only [hw, if_false]
          split
          · have e3 : (((s.simBlockIndex + 1).toNat : Nat) : Int) = s.simBlockIndex + 1 := by
              omega
            have e4 : ((((s.simLines.length : Int) - (s.simBlockIndex + 1)).toNat : Nat) : Int)
                = (s.simLines.length : Int) - (s.simBlockIndex + 1) := by omega
            rw [e3, e4]; omega
          · have e3 : (((s.simBlockIndex + 1).toNat : Nat) : Int) = s.simBlockIndex + 1 := by
              omega
            rw [e3]; omega
  · rw [if_neg hb] at h1
    have h1 := Option.some.inj h1
    subst h1
    have hlen : s.simLines = [] := by
      have : s.simLines.length = 0 := by omega
      exact List.length_eq_zero.mp this
    simp only [hlen, List.length_nil, Nat.cast_zero, if_true] at h2
    have ho := hinv.1 (by simp [hlen])
    have hres := idle_rest cfg line (Fields line) _ s2 s3 rfl rfl (by show s.out ≤ s.inp + 1; omega)
      h2 h3
    exact ⟨hres.1, hres.2⟩

theorem round_counters (cfg : Config) (slow : Int → Bool) (lastLine : Bool) (line : String)
    (s s' : State) (hinv : CountersOk s)
    (h : iteration cfg slow lastLine line s = some s') :
    s'.inp = s.inp + 1 ∧ s'.out ≤ s'.inp ∧ (lastLine = false → CountersOk s') ∧
      (lastLine = true → s'.out = s'.inp) := by
  obtain ⟨s1, s2, s3, h1, h2, h3, h4⟩ := iteration_eq _ _ _ _ _ _ h
  obtain ⟨hok, hinp⟩ := round_core cfg slow line s s1 s2 s3 hinv h1 h2 h3
  have hle : s3.out ≤ s3.inp := by
    by_cases hb : (s3.simLines.length : Int) = 0
    · exact hok.1 hb
    · have hpos : 0 < (s3.simLines.length : Int) := by omega
      obtain ⟨hi0, hi1, hr0, hone, htwo⟩ := hok.2 hpos
      by_cases hb1 : (s3.simLines.length : Int) = 1
      · have := hone hb1; omega
      · have hmul : 0 ≤ s3.simBlockRepeats * (s3.simLines.length : Int) :=
          mul_nonneg hr0 (by omega)
        by_cases hw : s3.simBlockIndex + 1 = (s3.simLines.length : Int)
        · have := (htwo (by omega)).1 hw; omega
        · have := (htwo (by omega)).2 hw; omega
  cases lastLine with
  | false =>
    simp only [Bool.false_eq_true, if_false] at h4
    have h4 := Option.some.inj h4
    subst h4
    exact ⟨hinp, hle, fun _ => hok, fun hc => by simp at hc⟩
  | true =>
    simp only [if_true] at h4
    obtain ⟨printed, _, _, rfl⟩ := flushRemaining_eq _ _ h4
    have e : (((s3.inp - s3.out).toNat : Nat) : Int) = s3.inp - s3.out := by omega
    simp only [e]
    exact ⟨hinp, by omega, fun hc => by simp at hc, fun _ => by omega⟩

theorem initialState_ok : CountersOk initialState := by
  unfold CountersOk initialState
  simp

end Uniqlog

namespace Uniqlog

/-! ## Conservation, the counter invariant, short lines -/

/-- C5: lines shorter than two bytes are invisible.  From every state of the
variables (with or without an open block) the rounds for an input end in the
same state, with the same output printed, as the rounds for the input without
its lines of length below 2; and `Perform` gives the same result (output,
counters, or panic) on both. -/
theorem C5_short_lines_invisible (cfg : Config) (slow : Int → Bool) (input : List String) :
    (∀ s : State, mainLoop cfg slow input s
        = mainLoop cfg slow (input.filter (fun line => decide (2 ≤ len line))) s) ∧
    Perform cfg slow input
      = Perform cfg slow (input.filter (fun line => decide (2 ≤ len line))) := by
  have key : ∀ s : State, mainLoop cfg slow input s
      = mainLoop cfg slow (input.filter (fun line => decide (2 ≤ len line))) s := by
    induction input with
    | nil => intro s; rfl
    | cons line rest ih =>
      intro s
      by_cases hl : len line < 2
      · have hd : decide (2 ≤ len line) = false := by simp; omega
        have e : List.filter (fun line => decide (2 ≤ len line)) (line :: rest)
            = List.filter (fun line => decide (2 ≤ len line)) rest := by
          rw [List.filter_cons]; simp only [hd, Bool.false_eq_true, if_false]
        rw [e, mainLoop, if_pos hl]
        exact ih s
      · have hd : decide (2 ≤ len line) = true := by simp; omega
        have e : List.filter (fun line => decide (2 ≤ len line)) (line :: rest)
            = line :: List.filter (fun line => decide (2 ≤ len line)) rest := by
          rw [List.filter_cons]; simp only [hd, if_true]
        rw [e, mainLoop, if_neg hl, mainLoop, if_neg hl]
        cases hi : iteration cfg slow false line s with
        | none => rfl
        | some s1 => simp only [Option.some_bind]; exact ih s1
  exact ⟨key, by unfold Perform; rw [key]⟩

end Uniqlog

namespace Uniqlog

/-! ## The first threshold and the lines absorbed -/

theorem scanLoop_never (cfg : Config) (tokens : List String) (unscanned : Int) (s s' : State)
    (ht : 1 ≤ cfg.FIRST_SIMILARITY_THRESHOLD) :
    ∀ (fuel : Nat) (i : Int), scanLoop cfg tokens unscanned s fuel i = some s' → s' = s := by
  intro fuel
  induction fuel with
  | zero =>
    intro i h
    simp only [scanLoop, Option.some.injEq] at h
    exact h.symm
  | succ fuel ih =>
    intro i h
    unfold scanLoop at h
    split at h
    · split at h
      · exact (Option.some.inj h).symm
      · simp only [Option.bind_eq_bind, Option.bind_eq_some] at h
        obtain ⟨hl, _, sim, hsim, h⟩ := h
        have hle := (GetSimilarity_range _ _ _ hsim).2
        split at h
        · rename_i hgt
          exact absurd hgt (not_lt.mpr (le_trans hle ht))
        · exact ih _ h
    · exact (Option.some.inj h).symm

theorem round_plainOnly (cfg : Config) (slow : Int → Bool) (lastLine : Bool) (line : String)
    (s s' : State) (ht : 1 ≤ cfg.FIRST_SIMILARITY_THRESHOLD) (hs : PlainOnly s)
    (h : iteration cfg slow lastLine line s = some s') : PlainOnly s' := by
  obtain ⟨s1, s2, s3, h1, h2, h3, h4⟩ := iteration_eq _ _ _ _ _ _ h
  obtain ⟨hl, hp⟩ := hs
  simp only [hl, List.length_nil, Nat.cast_zero, gt_iff_lt, lt_self_iff_false, if_false] at h1
  have h1 := Option.some.inj h1
  subst h1
  simp only [if_true] at h2
  unfold lookForSimilarities at h2
  have h2 := scanLoop_never cfg _ _ _ _ ht _ _ h2
  subst h2
  obtain ⟨flushed, ll, hf, _, rfl⟩ := updateBuffer_eq _ _ _ h3
  have hflushed : ∀ p ∈ flushed, ∃ x, p = Printed.plain x := by
    rcases hf with ⟨rfl, _⟩ | ⟨⟨x, _, rfl⟩, _⟩
    · intro p hp'; simp at hp'
    · intro p hp'
      simp only [List.mem_singleton] at hp'
      exact ⟨x, hp'⟩
  cases lastLine with
  | false =>
    simp only [Bool.false_eq_true, if_false] at h4
    have h4 := Option.some.inj h4
    subst h4
    refine ⟨rfl, ?_⟩
    intro p hp'
    simp only [List.mem_append] at hp'
    rcases hp' with hp' | hp'
    · exact hp p hp'
    · exact hflushed p hp'
  | true =>
    simp only [if_true] at h4
    obtain ⟨printed, _, hpr, rfl⟩ := flushRemaining_eq _ _ h4
    refine ⟨rfl, ?_⟩
    intro p hp'
    simp only [List.mem_append] at hp'
    rcases hp' with (hp' | hp') | hp'
    · exact hp p hp'
    · exact hflushed p hp'
    · exact hpr p hp'

theorem mainLoop_plainOnly (cfg : Config) (slow : Int → Bool)
    (ht : 1 ≤ cfg.FIRST_SIMILARITY_THRESHOLD) :
    ∀ (input : List String) (s s' : State), PlainOnly s →
      mainLoop cfg slow input s = some s' → PlainOnly s' := by
  intro input
  induction input with
  | nil =>
    intro s s' hs h
    simp only [mainLoop, Option.some.injEq] at h
    subst h; exact hs
  | cons line rest ih =>
    intro s s' hs h
    unfold mainLoop at h
    split at h
    · exact ih _ _ hs h
    · simp only [Option.bind_eq_some] at h
      obtain ⟨s1, h1, h2⟩ := h
      exact ih _ _ (round_plainOnly _ _ _ _ _ _ ht hs h1) h2

theorem absorbedFrom_plain (printed : List Printed)
    (h : ∀ p ∈ printed, ∃ x, p = Printed.plain x) : ∀ b, absorbedFrom b printed = 0 := by
  induction printed with
  | nil => intro b; rfl
  | cons p rest ih =>
    intro b
    obtain ⟨x, rfl⟩ := h p (List.mem_cons_self _ _)
    simp only [absorbedFrom]
    exact ih (fun q hq => h q (List.mem_cons_of_mem _ hq)) 0

theorem C7_counterexample :
    ∃ s1 s2 : State,
      Perform (debugOff (1 / 2) (49 / 100)) fast threeLineCycleTwice = some s1 ∧
      Perform (debugOff (9 / 10) (49 / 100)) fast threeLineCycleTwice = some s2 ∧
      (1 / 2 : ℚ) ≤ 9 / 10 ∧ (9 / 10 : ℚ) ≤ 1 ∧
      absorbedLines s1.stdout = 0 ∧ absorbedLines s2.stdout = 6 ∧
      ¬ (absorbedLines s2.stdout ≤ absorbedLines s1.stdout) := by
  have h1 : (Perform (debugOff (1 / 2) (49 / 100)) fast threeLineCycleTwice).map (fun s => absorbedLines s.stdout) = some 0 := by
    decide!
  have h2 : (Perform (debugOff (9 / 10) (49 / 100)) fast threeLineCycleTwice).map (fun s => absorbedLines s.stdout) = some 6 := by
    decide!
  obtain ⟨s1, hs1, e1⟩ := Option.map_eq_some'.mp h1
  obtain ⟨s2, hs2, e2⟩ := Option.map_eq_some'.mp h2
  refine ⟨s1, s2, hs1, hs2, by norm_num, by norm_num, e1, e2, ?_⟩
  rw [e1, e2]; omega

/-- C7 (amended): with `firstSimilarityThreshold` raised to 1 or above no line
is absorbed into a collapsed block, so the number of lines absorbed is 0 and
does not exceed the number absorbed with any other first threshold `t1`, for
every input, keep threshold and behaviour of the clock. -/
theorem C7_no_absorption_at_threshold_one (keep t1 t2 : ℚ) (slow : Int → Bool)
    (input : List String) (s1 s2 : State) (ht : 1 ≤ t2)
    (h1 : Perform (debugOff t1 keep) slow input = some s1)
    (h2 : Perform (debugOff t2 keep) slow input = some s2) :
    absorbedLines s2.stdout = 0 ∧ absorbedLines s2.stdout ≤ absorbedLines s1.stdout := by
  have h0 : absorbedLines s2.stdout = 0 := by
    unfold Perform at h2
    simp only [Option.bind_eq_some] at h2
    obtain ⟨s, ha, hb⟩ := h2
    have hinit : PlainOnly initialState := ⟨rfl, by intro p hp; simp [initialState] at hp⟩
    have hs := mainLoop_plainOnly _ slow (by exact ht) input _ _ hinit ha
    have hs2 := round_plainOnly _ _ _ _ _ _ (by exact ht) hs hb
    exact absorbedFrom_plain _ hs2.2 0
  exact ⟨h0, by rw [h0]; exact Nat.zero_le _⟩

theorem C7_no_absorption_at_threshold_one_witness :
    ∃ s1 s2 : State,
      Perform (debugOff (1 / 2) (49 / 100)) fast threeLineCycleTwice = some s1 ∧
      Perform (debugOff 1 (49 / 100)) fast threeLineCycleTwice = some s2 ∧
      absorbedLines s2.stdout = 0 ∧ absorbedLines s2.stdout ≤ absorbedLines s1.stdout := by
  have a1 : (Perform (debugOff (1 / 2) (49 / 100)) fast threeLineCycleTwice).isSome = true := by decide!
  have a2 : (Perform (debugOff 1 (49 / 100)) fast threeLineCycleTwice).isSome = true := by decide!
  obtain ⟨s1, hs1⟩ := Option.isSome_iff_exists.mp a1
  obtain ⟨s2, hs2⟩ := Option.isSome_iff_exists.mp a2
  exact ⟨s1, s2, hs1, hs2,
    C7_no_absorption_at_threshold_one (49 / 100) (1 / 2) 1 fast threeLineCycleTwice s1 s2
      (le_refl 1) hs1 hs2⟩

end Uniqlog

namespace Uniqlog

/-! ## More than fifty lines without a repetition -/

/-- C2: the code at the failing input.  The fifty-one lines have three tokens
each, and none has a similarity above 0.9 to an earlier one.  `Perform` prints
an empty line first (the ring slot that was never written), then the first two
lines, then the fourth to the fifty-first line and the empty line of the extra
round: the third line, `2024-01-01 request 2`, is not printed at all. -/
theorem C2_overflow_loses_a_line :
    fiftyOneLines.length = 51 ∧
    (∀ line ∈ fiftyOneLines, 2 ≤ len line ∧ 3 ≤ (Fields line).length) ∧
    fiftyOneLines.Pairwise (fun earlier later =>
      ∃ v, GetSimilarity (Fields earlier) (Fields later) = some v ∧ v ≤ 9 / 10) ∧
    (Perform defaultConfig fast fiftyOneLines).map (fun s => s.stdout)
      = some (Printed.plain "" ::
          ((fiftyOneLines.take 2 ++ fiftyOneLines.drop 3).map Printed.plain
            ++ [Printed.plain ""])) ∧
    fiftyOneLines[2]? = some "2024-01-01 request 2" ∧
    Printed.plain "2024-01-01 request 2" ∉
      (Printed.plain "" ::
        ((fiftyOneLines.take 2 ++ fiftyOneLines.drop 3).map Printed.plain
          ++ [Printed.plain ""])) := by
  unfold fiftyOneLines
  decide!

end Uniqlog

namespace Uniqlog

/-! ## Reading the ring -/

theorem tmod50 (x : Int) (h : 0 ≤ x) : Int.tmod x MAX_LINES_TRACK = x % 50 := by
  unfold MAX_LINES_TRACK
  exact Int.tmod_eq_emod h (by omega)

theorem at?_set_self (ll : List String) (li : Int) (line : String)
    (h : RingOk ll li) : at? (ll.set li.toNat line) li = some line := by
  obtain ⟨hl, h0, h1⟩ := h
  rw [at?_of_nonneg _ _ h0, List.getElem?_set]
  simp only [if_true]
  rw [if_pos (by omega)]

theorem at?_set_other (ll : List String) (li j : Int) (line : String)
    (h0 : 0 ≤ li) (hj : 0 ≤ j) (hne : j ≠ li) : at? (ll.set li.toNat line) j = at? ll j := by
  rw [at?_of_nonneg _ _ hj, at?_of_nonneg _ _ hj, List.getElem?_set]
  rw [if_neg (by omega)]

theorem setAt?_ok (ll : List String) (li : Int) (line : String) (h : RingOk ll li) :
    setAt? ll li line = some (ll.set li.toNat line) := by
  obtain ⟨hl, h0, h1⟩ := h
  unfold setAt?
  rw [if_neg (by omega), if_pos (by omega)]

theorem RingOk_push (ll : List String) (li : Int) (line : String) (h : RingOk ll li) :
    RingOk (ll.set li.toNat line) (Int.tmod (li + 1) MAX_LINES_TRACK) := by
  obtain ⟨hl, h0, h1⟩ := h
  rw [tmod50 _ (by omega)]
  refine ⟨by simp [hl], by omega, by omega⟩

theorem Holds_push (ll : List String) (li : Int) (line : String) (recent : List String)
    (h : RingOk ll li) (hh : Holds ll li recent) :
    Holds (ll.set li.toNat line) (Int.tmod (li + 1) MAX_LINES_TRACK) (line :: recent) := by
  obtain ⟨hl, h0, h1⟩ := h
  intro d hd1 hd50 hdl
  rw [tmod50 (li + 1) (by omega)]
  have hx : 0 ≤ (li + 1) % 50 - (d : Int) + MAX_LINES_TRACK := by
    unfold MAX_LINES_TRACK; omega
  rw [tmod50 _ hx]
  by_cases hd : d = 1
  · subst hd
    have e : ((li + 1) % 50 - ((1 : Nat) : Int) + MAX_LINES_TRACK) % 50 = li := by
      unfold MAX_LINES_TRACK; omega
    rw [e, at?_set_self _ _ _ ⟨hl, h0, h1⟩]
    simp
  · have e : ((li + 1) % 50 - (d : Int) + MAX_LINES_TRACK) % 50
        = (li - ((d - 1 : Nat) : Int) + MAX_LINES_TRACK) % 50 := by
      unfold MAX_LINES_TRACK; omega
    have hne : (li - ((d - 1 : Nat) : Int) + MAX_LINES_TRACK) % 50 ≠ li := by
      unfold MAX_LINES_TRACK; omega
    rw [e, at?_set_other _ _ _ _ h0 (by unfold MAX_LINES_TRACK; omega) hne]
    have hprev := hh (d - 1) (by omega) (by omega) (by simp only [List.length_cons] at hdl; omega)
    rw [tmod50 _ (by unfold MAX_LINES_TRACK; omega)] at hprev
    rw [hprev]
    obtain ⟨k, rfl⟩ : ∃ k, d = k + 2 := ⟨d - 2, by omega⟩
    simp

theorem Holds_nil (ll : List String) (li : Int) : Holds ll li [] := by
  intro d hd1 _ hdl
  simp only [List.length_nil] at hdl
  omega

/-! ## Running the parts of a round forwards -/

theorem GetSimilarity_nil (prevTokens : List String) : GetSimilarity prevTokens [] = some 0 := by
  simp [GetSimilarity]

theorem Fields_empty : Fields "" = [] := by
  rfl

end Uniqlog

namespace Uniqlog

end Uniqlog

namespace Uniqlog

end Uniqlog

namespace Uniqlog

/-! ## A cycle of lines, repeated -/

end Uniqlog

namespace Uniqlog

end Uniqlog

namespace Uniqlog

end Uniqlog

namespace Uniqlog

end Uniqlog

namespace Uniqlog

/-! ## The short branch of `GetSimilarity` and the index it uses -/

/-- C11: the code at the failing inputs.  With `curTokens = [x, c]` the token of
`prevTokens` that is compared is the one at index 1, not the last one: for
`prevTokens = [a, b, c]`, whose last token equals the last token of `curTokens`,
the result is 0.9 and not 1; and `[a, c, z]` and `[a, b, z]`, which have the same
last token, give different results. -/
theorem C11_short_branch_reads_index_of_current :
    GetSimilarity ["a", "b", "c"] ["x", "c"] = some (9 / 10) ∧
    GetSimilarity ["a", "c", "z"] ["x", "c"] = some 1 ∧
    GetSimilarity ["a", "b", "z"] ["x", "c"] = some (9 / 10) ∧
    GetSimilarity ["q", "kitten"] ["sitting"] = some 0 := by
  decide!

/-- C12: the code at the failing inputs.  `GetSimilarity` indexes `prevTokens`
out of range when it is shorter than a `curTokens` of one or two tokens, and
`Perform` stops with that panic on a one-token line followed by a two-token
line, and on a line of two blanks followed by a one-token line. -/
theorem C12_short_branch_panics :
    GetSimilarity ["aa"] ["x", "y"] = none ∧
    GetSimilarity [] ["ab"] = none ∧
    Perform defaultConfig fast ["aa", "x y"] = none ∧
    Perform defaultConfig fast ["  ", "ab"] = none := by
  decide!

/-! ## The overflow flush -/

/-- C16: the code at the failing input.  After 49 of the fifty-one lines nothing
has been printed.  In the round of the 50th line the overflow branch fires with
`out = 0` and prints the empty text of a slot never written; in the round of the
51st line it fires with `out = 1` and prints line 1, which the counters treat as
emitted already, where the oldest line not yet counted is line 2. -/
theorem C16_overflow_prints_stale_slot :
    (mainLoop defaultConfig fast (fiftyOneLines.take 49) initialState).map
        (fun s => (s.stdout, s.inp, s.out)) = some ([], 49, 0) ∧
    (mainLoop defaultConfig fast (fiftyOneLines.take 50) initialState).map
        (fun s => (s.stdout, s.inp, s.out)) = some ([Printed.plain ""], 50, 1) ∧
    (mainLoop defaultConfig fast (fiftyOneLines.take 51) initialState).map
        (fun s => (s.stdout, s.inp, s.out))
      = some ([Printed.plain "", Printed.plain "2024-01-01 request 0"], 51, 2) ∧
    fiftyOneLines[0]? = some "2024-01-01 request 0" ∧
    fiftyOneLines[1]? = some "2024-01-01 request 1" := by
  unfold fiftyOneLines
  decide!

/-! ## The diff printed at a false start -/

/-- C18: the code at the failing input.  The third line opens a block of the
first two lines; the fourth line breaks it at cursor 1 with no repetition
counted.  The one diff printed sets template line 0 against the second line
(the other template line), not against the third line, which is the line that
was matched with template 0. -/
theorem C18_diff_pairs_wrong_history_line :
    (mainLoop defaultConfig fast (falseStartLines.take 3) initialState).map
        (fun s => (s.simLines, s.simBlockIndex, s.simBlockRepeats))
      = some (["1 alpha beta gamma", "1 delta eps zeta"], 0, 0) ∧
    (mainLoop defaultConfig fast (falseStartLines.take 3) initialState).map
        (fun s => (s.stdout, s.inp, s.out)) = some ([], 3, 0) ∧
    (mainLoop defaultConfig fast falseStartLines initialState).map
        (fun s => (s.simLines, s.simBlockIndex, s.simBlockRepeats)) = some ([], 1, 0) ∧
    (mainLoop defaultConfig fast falseStartLines initialState).map
        (fun s => (s.stdout, s.inp, s.out))
      = some ([Printed.plain (PrintSimilarity "1 alpha beta gamma" "1 delta eps zeta")],
          4, 1) ∧
    PrintSimilarity "1 alpha beta gamma" "1 delta eps zeta"
      ≠ PrintSimilarity "1 alpha beta gamma" "2 alpha beta gamma" := by
  decide!

end Uniqlog

namespace Uniqlog

/-! ## What a round leaves untouched -/

theorem round_frame (cfg : Config) (slow : Int → Bool) (line : String) (s s1 s2 : State)
    (h1 : (if (s.simLines.length : Int) > 0 then
          checkBlock cfg slow line (Fields line)
            { s with inp := s.inp + 1, simBlockLines := (s.simLines.length : Int) }
        else some { s with inp := s.inp + 1, simBlockLines := (s.simLines.length : Int) })
        = some s1)
    (h2 : (if s1.simBlockLines = 0 then lookForSimilarities cfg (Fields line) s1 else some s1)
        = some s2) :
    s2.ll = s.ll ∧ s2.li = s.li ∧ s2.inp = s.inp + 1 ∧ s.out ≤ s2.out := by
  have hs1 : s1.ll = s.ll ∧ s1.li = s.li ∧ s1.inp = s.inp + 1 ∧ s.out ≤ s1.out := by
    by_cases hb : (s.simLines.length : Int) > 0
    · rw [if_pos hb] at h1
      obtain ⟨t, sim, _, _, hcase⟩ := checkBlock_eq _ _ _ _ _ _ h1
      rcases hcase with ⟨_, rfl⟩ | ⟨_, hr, s1', hp, rfl⟩ | ⟨_, hr, s1', hfs, rfl⟩
      · exact ⟨rfl, rfl, rfl, le_refl _⟩
      · obtain ⟨lines, hlines, rfl⟩ := printBlock_eq _ _ hp
        refine ⟨rfl, rfl, rfl, ?_⟩
        simp only at hr ⊢
        have hm : 0 ≤ (s.simLines.length : Int) *
            (if (s.simLines.length : Int) = 1 then s.simBlockRepeats + 1
              else s.simBlockRepeats) := by
          apply mul_nonneg (by omega)
          split <;> omega
        omega
      · obtain ⟨printed, rfl, _⟩ := falseStart_eq _ _ _ _ _ hfs
        refine ⟨rfl, rfl, rfl, ?_⟩
        simp only
        split <;> omega
    · rw [if_neg hb] at h1
      have h1 := Option.some.inj h1
      subst h1
      exact ⟨rfl, rfl, rfl, le_refl _⟩
  obtain ⟨a1, a2, a3, a4⟩ := hs1
  by_cases h0 : s1.simBlockLines = 0
  · rw [if_pos h0] at h2
    unfold lookForSimilarities at h2
    rcases scanLoop_eq _ _ _ _ _ _ _ (le_refl 0) h2 with rfl | ⟨j, _, _, _, hj⟩
    · exact ⟨a1, a2, a3, a4⟩
    · obtain ⟨fl, sl, _, _, _, _, _, _, rfl⟩ := establish_eq _ _ _ _ hj
      refine ⟨a1, a2, a3, ?_⟩
      simp only
      omega
  · rw [if_neg h0] at h2
    have h2 := Option.some.inj h2
    subst h2
    exact ⟨a1, a2, a3, a4⟩

theorem fieldsFrom_blank (cs : List Char) (h : ∀ c ∈ cs, isSpace c = true) :
    fieldsFrom [] cs = [] := by
  induction cs with
  | nil => rfl
  | cons c cs ih =>
    simp only [fieldsFrom, h c (List.mem_cons_self _ _), if_true, List.isEmpty_nil]
    exact ih (fun d hd => h d (List.mem_cons_of_mem _ hd))

theorem setAt?_read (ll ll' : List String) (li : Int) (line : String)
    (h : setAt? ll li line = some ll') : at? ll' li = some line := by
  unfold setAt? at h
  split at h
  · exact absurd h (by simp)
  · split at h
    · rename_i h0 hlt
      have h := Option.some.inj h
      subst h
      rw [at?_of_nonneg _ _ (by omega), List.getElem?_set]
      simp only [if_true]
      rw [if_pos hlt]
    · exact absurd h (by simp)

/-- C13: the code on a line of two blanks.  Its characters are all white space
and its length is two, so it is not skipped: it is counted, stored in the ring
and printed. -/
theorem C13_counterexample :
    (∀ c ∈ "  ".data, isSpace c = true) ∧ len "  " = 2 ∧
    (Perform defaultConfig fast ["  "]).map (fun s => (s.stdout, s.inp, s.out))
      = some ([Printed.plain "  ", Printed.plain ""], 2, 2) ∧
    (Perform defaultConfig fast []).map (fun s => (s.stdout, s.inp, s.out))
      = some ([Printed.plain ""], 1, 1) ∧
    (mainLoop defaultConfig fast ["  "] initialState).map (fun s => s.ll[0]?)
      = some (some "  ") := by
  decide!

/-- C13 (amended): a line that consists only of white space is skipped when its
length is below 2, as every line of that length is.  When its length is 2 or
more it is consumed like any other line: it has no tokens, the round for it is
run, and a round that completes has counted it in `inp` and stored it in the
ring slot that `li` pointed to. -/
theorem C13_blank_line_of_length_two_is_consumed (cfg : Config) (slow : Int → Bool)
    (line : String) (rest : List String) (s : State)
    (hws : ∀ c ∈ line.data, isSpace c = true) :
    (len line < 2 → mainLoop cfg slow (line :: rest) s = mainLoop cfg slow rest s) ∧
    (2 ≤ len line →
      Fields line = [] ∧
      mainLoop cfg slow (line :: rest) s
        = (iteration cfg slow false line s).bind (mainLoop cfg slow rest) ∧
      ∀ s', iteration cfg slow false line s = some s' →
        s'.inp = s.inp + 1 ∧ at? s'.ll s.li = some line) := by
  constructor
  · intro h
    rw [mainLoop, if_pos h]
  · intro h
    refine ⟨fieldsFrom_blank _ hws, ?_, ?_⟩
    · rw [mainLoop, if_neg (by omega)]
    · intro s' hs'
      obtain ⟨s1, s2, s3, h1, h2, h3, h4⟩ := iteration_eq _ _ _ _ _ _ hs'
      obtain ⟨f1, f2, f3, _⟩ := round_frame _ _ _ _ _ _ h1 h2
      obtain ⟨flushed, ll, _, hset, rfl⟩ := updateBuffer_eq _ _ _ h3
      simp only [Bool.false_eq_true, if_false] at h4
      have h4 := Option.some.inj h4
      subst h4
      refine ⟨f3, ?_⟩
      rw [f1, f2] at hset
      exact setAt?_read _ _ _ _ hset

theorem C13_blank_line_of_length_two_is_consumed_witness :
    (len "  " < 2 → mainLoop defaultConfig fast ("  " :: []) initialState
        = mainLoop defaultConfig fast [] initialState) ∧
    (2 ≤ len "  " →
      Fields "  " = [] ∧
      mainLoop defaultConfig fast ("  " :: []) initialState
        = (iteration defaultConfig fast false "  " initialState).bind
            (mainLoop defaultConfig fast []) ∧
      ∀ s', iteration defaultConfig fast false "  " initialState = some s' →
        s'.inp = initialState.inp + 1 ∧ at? s'.ll initialState.li = some "  ") :=
  C13_blank_line_of_length_two_is_consumed defaultConfig fast "  " [] initialState (by decide)

end Uniqlog

namespace Uniqlog

/-! ## The state between two rounds -/

theorem round_gap (cfg : Config) (slow : Int → Bool) (line : String) (s s1 : State)
    (hinv : CountersOk s) (hlen : s.simLines.length ≤ 49)
    (hidle : s.simLines = [] → s.inp - s.out ≤ 49)
    (h1 : (if (s.simLines.length : Int) > 0 then
          checkBlock cfg slow line (Fields line)
            { s with inp := s.inp + 1, simBlockLines := (s.simLines.length : Int) }
        else some { s with inp := s.inp + 1, simBlockLines := (s.simLines.length : Int) })
        = some s1) :
    (s1.simBlockLines = 0 →
      s1.simLines = [] ∧ 1 ≤ s1.inp - s1.out ∧ s1.inp - s1.out ≤ 50) ∧
    (s1.simBlockLines ≠ 0 →
      s1.simLines = s.simLines ∧ s1.simBlockLines = (s.simLines.length : Int)) := by
  by_cases hb : (s.simLines.length : Int) > 0
  · rw [if_pos hb] at h1
    obtain ⟨t, sim, _, _, hcase⟩ := checkBlock_eq _ _ _ _ _ _ h1
    simp only at hcase
    obtain ⟨hi0, hi1, hr0, hone, htwo⟩ := hinv.2 hb
    have htm := tmod_succ s.simBlockIndex _ hi0 hi1
    rcases hcase with ⟨_, rfl⟩ | ⟨_, hr, s1', hp, rfl⟩ | ⟨_, hr, s1', hfs, rfl⟩
    · refine ⟨fun h => ?_, fun _ => ⟨rfl, rfl⟩⟩
      simp only at h
      omega
    · obtain ⟨lines, hlines, rfl⟩ := printBlock_eq _ _ hp
      refine ⟨fun _ => ⟨rfl, ?_⟩, fun h => absurd rfl h⟩
      simp only [hlines]
      have e1 : (((s.simLines.length : Int).toNat : Nat) : Int) = (s.simLines.length : Int) := by
        omega
      rw [e1]
      by_cases hb1 : (s.simLines.length : Int) = 1
      · have h11 := hone hb1
        simp only [hb1, if_true, one_mul]
        constructor <;> omega
      · simp only [hb1, if_false]
        have e2 := mul_comm (s.simLines.length : Int) s.simBlockRepeats
        rw [e2]
        by_cases hw : s.simBlockIndex + 1 = (s.simLines.length : Int)
        · have h22 := (htwo (by omega)).1 hw
          constructor <;> omega
        · have h22 := (htwo (by omega)).2 hw
          constructor <;> omega
    · obtain ⟨printed, rfl, _⟩ := falseStart_eq _ _ _ _ _ hfs
      refine ⟨fun _ => ⟨rfl, ?_⟩, fun h => absurd rfl h⟩
      simp only
      rw [htm]
      have hr' : s.simBlockRepeats = 0 := by omega
      by_cases hb1 : (s.simLines.length : Int) = 1
      · have h11 := hone hb1
        have hw : s.simBlockIndex + 1 = (s.simLines.length : Int) := by omega
        simp only [hw, if_true, hb1]
        split <;> simp <;> omega
      · have hw : s.simBlockIndex + 1 ≠ (s.simLines.length : Int) := by
          intro hw
          have := (htwo (by omega)).1 hw
          omega
        have h22 := (htwo (by omega)).2 hw
        rw [hr', zero_mul] at h22
        simp only [hw, if_false]
        have e3 : (((s.simBlockIndex + 1).toNat : Nat) : Int) = s.simBlockIndex + 1 := by
          omega
        have e4 : ((((s.simLines.length : Int) - (s.simBlockIndex + 1)).toNat : Nat) : Int)
            = (s.simLines.length : Int) - (s.simBlockIndex + 1) := by omega
        split
        · rw [e3, e4]; constructor <;> omega
        · rw [e3]; constructor <;> omega
  · rw [if_neg hb] at h1
    have h1 := Option.some.inj h1
    subst h1
    have hl : s.simLines = [] := by
      have : s.simLines.length = 0 := by omega
      exact List.length_eq_zero.mp this
    have ho := hinv.1 (by simp [hl])
    have hd := hidle hl
    refine ⟨fun _ => ⟨hl, ?_, ?_⟩, fun h => ?_⟩
    · simp only; omega
    · simp only; omega
    · simp only [hl, List.length_nil, Nat.cast_zero] at h
      exact absurd rfl h

theorem round_wellFormed (cfg : Config) (slow : Int → Bool) (line : String) (s s' : State)
    (hist : List String) (hwf : WellFormed s hist)
    (h : iteration cfg slow false line s = some s') : WellFormed s' (line :: hist) := by
  obtain ⟨hring, hholds, hinp, hout, hok, hidle, hlen⟩ := hwf
  obtain ⟨s1, s2, s3, h1, h2, h3, h4⟩ := iteration_eq _ _ _ _ _ _ h
  simp only [Bool.false_eq_true, if_false] at h4
  have h4 := Option.some.inj h4
  subst h4
  obtain ⟨f1, f2, f3, f4⟩ := round_frame _ _ _ _ _ _ h1 h2
  obtain ⟨hok3, _⟩ := round_core cfg slow line s s1 s2 s3 hok h1 h2 h3
  obtain ⟨g0, g1⟩ := round_gap cfg slow line s s1 hok hlen hidle h1
  obtain ⟨flushed, ll, hf, hset, e3⟩ := updateBuffer_eq _ _ _ h3
  have hll : ll = s.ll.set s.li.toNat line := by
    rw [f1, f2, setAt?_ok _ _ _ hring] at hset
    exact (Option.some.inj hset).symm
  have hsizes : (s3.simLines = [] → s3.inp - s3.out ≤ 49) ∧ s3.simLines.length ≤ 49 := by
    by_cases h0 : s1.simBlockLines = 0
    · obtain ⟨hl1, hd1, hd2⟩ := g0 h0
      rw [if_pos h0] at h2
      unfold lookForSimilarities at h2
      rcases scanLoop_eq _ _ _ _ _ _ _ (le_refl 0) h2 with e2 | ⟨j, hj0, hju, _, hj⟩
      · subst e2
        subst e3
        simp only [hl1, List.length_nil]
        refine ⟨fun _ => ?_, by omega⟩
        rcases hf with ⟨rfl, hc⟩ | ⟨⟨x, _, rfl⟩, hc, _⟩
        · simp only [List.length_nil, Nat.cast_zero, add_zero]
          have hM : MAX_LINES_TRACK = 50 := rfl
          simp only [h0, and_true, not_le] at hc
          omega
        · simp only [List.length_singleton, Nat.cast_one]
          omega
      · obtain ⟨fl, sl, hfl, hsl, hj1, _, _, _, e2⟩ := establish_eq _ _ _ _ hj
        subst e2
        subst e3
        simp only
        have e1 : (((j + 1).toNat : Nat) : Int) = j + 1 := by omega
        refine ⟨fun hnil => ?_, by omega⟩
        rw [hnil] at hsl
        simp only [List.length_nil] at hsl
        omega
    · obtain ⟨hl1, hb1⟩ := g1 h0
      rw [if_neg h0] at h2
      have h2 := Option.some.inj h2
      subst h2
      subst e3
      simp only [hl1]
      refine ⟨fun hnil => ?_, hlen⟩
      rw [hnil] at hb1
      simp only [List.length_nil, Nat.cast_zero] at hb1
      exact absurd hb1 h0
  subst e3
  refine ⟨?_, ?_, ?_, ?_, hok3, hsizes.1, hsizes.2⟩
  · simp only [hll, f2]
    exact RingOk_push _ _ _ hring
  · simp only [hll, f2]
    exact Holds_push _ _ _ _ hring hholds
  · simp only [f3, hinp, List.length_cons]
    push_cast; rfl
  · simp only
    have : 0 ≤ (flushed.length : Int) := Int.natCast_nonneg _
    omega

theorem initialState_wellFormed : WellFormed initialState [] := by
  refine ⟨⟨by simp [initialState], by simp [initialState], by simp [initialState]⟩,
    Holds_nil _ _, rfl, le_refl _, initialState_ok, fun _ => ?_, ?_⟩
  · simp [initialState]
  · simp [initialState]

theorem mainLoop_wellFormed (cfg : Config) (slow : Int → Bool) :
    ∀ (input : List String) (s s' : State) (hist : List String), WellFormed s hist →
      mainLoop cfg slow input s = some s' →
      WellFormed s' ((consumed input).reverse ++ hist) := by
  intro input
  induction input with
  | nil =>
    intro s s' hist hs h
    simp only [mainLoop, Option.some.injEq] at h
    subst h
    simpa [consumed] using hs
  | cons line rest ih =>
    intro s s' hist hs h
    unfold mainLoop at h
    by_cases hl : len line < 2
    · rw [if_pos hl] at h
      have hd : decide (2 ≤ len line) = false := by simp; omega
      have e : consumed (line :: rest) = consumed rest := by
        unfold consumed
        rw [List.filter_cons]; simp only [hd, Bool.false_eq_true, if_false]
      rw [e]
      exact ih _ _ _ hs h
    · rw [if_neg hl] at h
      simp only [Option.bind_eq_some] at h
      obtain ⟨s1, h1, h2⟩ := h
      have hd : decide (2 ≤ len line) = true := by simp; omega
      have e : consumed (line :: rest) = line :: consumed rest := by
        unfold consumed
        rw [List.filter_cons]; simp only [hd, if_true]
      have := ih _ _ _ (round_wellFormed _ _ _ _ _ _ hs h1) h2
      rw [e]
      simpa using this

theorem reach_wellFormed (cfg : Config) (slow : Int → Bool) (input : List String) (s : State)
    (h : mainLoop cfg slow input initialState = some s) :
    WellFormed s (consumed input).reverse := by
  have := mainLoop_wellFormed cfg slow input _ _ [] initialState_wellFormed h
  simpa using this

end Uniqlog

namespace Uniqlog

/-! ## Counting repetitions -/

end Uniqlog

namespace Uniqlog

/-! ## A block that breaks before its first repetition -/

end Uniqlog

namespace Uniqlog

end Uniqlog

namespace Uniqlog

/-! ## Debug mode -/

end Uniqlog

namespace Uniqlog

/-! ## Opening a block -/

end Uniqlog

namespace Uniqlog

/-! ## The extra last round -/

theorem scanLoop_no_match (cfg : Config) (tokens : List String) (unscanned : Int)
    (s s' : State)
    (hnever : ∀ prev v, GetSimilarity prev tokens = some v →
      ¬ v > cfg.FIRST_SIMILARITY_THRESHOLD) :
    ∀ (fuel : Nat) (i : Int), scanLoop cfg tokens unscanned s fuel i = some s' → s' = s := by
  intro fuel
  induction fuel with
  | zero =>
    intro i h
    simp only [scanLoop, Option.some.injEq] at h
    exact h.symm
  | succ fuel ih =>
    intro i h
    unfold scanLoop at h
    split at h
    · split at h
      · exact (Option.some.inj h).symm
      · simp only [Option.bind_eq_bind, Option.bind_eq_some] at h
        obtain ⟨hl, _, sim, hsim, h⟩ := h
        split at h
        · rename_i hgt
          exact absurd hgt (hnever _ _ hsim)
        · exact ih _ h
    · exact (Option.some.inj h).symm

theorem flushLoop_last : ∀ (fuel : Nat) (idx : Int) (s s' : State),
    flushLoop (fuel + 1) idx s = some s' → fuel + 1 = (s.inp - s.out).toNat →
    0 ≤ idx → idx < 50 →
    ∃ x, at? s.ll (Int.tmod (idx + (fuel : Int)) MAX_LINES_TRACK) = some x ∧
      s'.stdout.getLast? = some (Printed.plain x) ∧ s'.inp = s.inp ∧
      s'.simLines = s.simLines ∧ s'.out = s.inp := by
  intro fuel
  induction fuel with
  | zero =>
    intro idx s s' h hf h0 h50
    unfold flushLoop at h
    have hlt : s.out < s.inp := by omega
    rw [if_pos hlt] at h
    simp only [Option.bind_eq_bind, Option.bind_eq_some, flushLoop, Option.some.injEq] at h
    obtain ⟨x, hx, rfl⟩ := h
    refine ⟨x, ?_, by simp, rfl, rfl, ?_⟩
    · rw [tmod50 _ (by simp only [Nat.cast_zero, add_zero]; exact h0)]
      simp only [Nat.cast_zero, add_zero]
      rw [Int.emod_eq_of_lt h0 h50]
      exact hx
    · show s.out + 1 = s.inp
      omega
  | succ fuel ih =>
    intro idx s s' h hf h0 h50
    unfold flushLoop at h
    have hlt : s.out < s.inp := by omega
    rw [if_pos hlt] at h
    simp only [Option.bind_eq_bind, Option.bind_eq_some] at h
    obtain ⟨y, _, h⟩ := h
    have hm0 : 0 ≤ Int.tmod (idx + 1) MAX_LINES_TRACK := by
      rw [tmod50 _ (by omega)]; omega
    have hm1 : Int.tmod (idx + 1) MAX_LINES_TRACK < 50 := by
      rw [tmod50 _ (by omega)]; omega
    obtain ⟨x, hx, hlast, hinp, hsl, hout⟩ := ih _ _ _ h
      (by show fuel + 1 = (s.inp - (s.out + 1)).toNat; omega) hm0 hm1
    refine ⟨x, ?_, hlast, hinp, hsl, hout⟩
    rw [tmod50 _ (by omega)] at hx
    rw [tmod50 _ (by omega)]
    rw [tmod50 _ (by omega), Int.emod_add_emod] at hx
    have e : idx + ((fuel + 1 : Nat) : Int) = idx + 1 + (fuel : Int) := by push_cast; ring
    rw [e]
    exact hx

/-- A run of `Perform` that returns, with both thresholds at least zero (the
scanner having reached the end of the input).  The empty line of the extra
round has similarity zero to every line, which exceeds neither threshold; the
run ends with no block open, `inp` is the number of input lines of two bytes or
more plus one, `out = inp`, and the last line printed is the empty line. -/
theorem Perform_sentinel (cfg : Config) (slow : Int → Bool)
    (input : List String) (s : State)
    (hk : 0 ≤ cfg.KEEP_SIMILARITY_THRESHOLD) (hf : 0 ≤ cfg.FIRST_SIMILARITY_THRESHOLD)
    (h : Perform cfg slow input = some s) :
    (∀ prevTokens, ∃ v, GetSimilarity prevTokens (Fields "") = some v ∧
      ¬ v > cfg.KEEP_SIMILARITY_THRESHOLD ∧ ¬ v > cfg.FIRST_SIMILARITY_THRESHOLD) ∧
    s.simLines = [] ∧
    s.inp = ((consumed input).length : Int) + 1 ∧
    s.out = s.inp ∧
    s.stdout.getLast? = some (Printed.plain "") := by
  have hsent : ∀ prevTokens, ∃ v, GetSimilarity prevTokens (Fields "") = some v ∧
      ¬ v > cfg.KEEP_SIMILARITY_THRESHOLD ∧ ¬ v > cfg.FIRST_SIMILARITY_THRESHOLD := by
    intro prevTokens
    rw [Fields_empty, GetSimilarity_nil]
    exact ⟨0, rfl, not_lt.mpr hk, not_lt.mpr hf⟩
  refine ⟨hsent, ?_⟩
  unfold Perform at h
  simp only [Option.bind_eq_some] at h
  obtain ⟨s0, hmain, hlast⟩ := h
  obtain ⟨hring, hh, hinp, hout, hok, hgap, hlen⟩ := reach_wellFormed cfg slow input s0 hmain
  simp only [List.length_reverse] at hinp
  obtain ⟨s1, s2, s3, h1, h2, h3, h4⟩ := iteration_eq cfg slow true "" s0 s hlast
  obtain ⟨fll, fli, finp, _⟩ := round_frame cfg slow "" s0 s1 s2 h1 h2
  obtain ⟨gidle, _⟩ := round_gap cfg slow "" s0 s1 hok hlen hgap h1
  have hz : s1.simBlockLines = 0 := by
    by_cases hb : (s0.simLines.length : Int) > 0
    · rw [if_pos hb] at h1
      obtain ⟨t, sim, _, hsim, hcase⟩ := checkBlock_eq _ _ _ _ _ _ h1
      rw [Fields_empty, GetSimilarity_nil] at hsim
      have hsim := Option.some.inj hsim
      subst hsim
      rcases hcase with ⟨hgt, _⟩ | ⟨_, _, _, _, rfl⟩ | ⟨_, _, _, _, rfl⟩
      · exact absurd hgt (not_lt.mpr hk)
      · rfl
      · rfl
    · rw [if_neg hb] at h1
      have h1 := Option.some.inj h1
      subst h1
      show (s0.simLines.length : Int) = 0
      omega
  obtain ⟨hsl1, hg1, hg2⟩ := gidle hz
  rw [if_pos hz] at h2
  unfold lookForSimilarities at h2
  have h2 := scanLoop_no_match cfg (Fields "") _ s1 s2
    (fun prev v hv => by
      rw [Fields_empty, GetSimilarity_nil] at hv
      have hv := Option.some.inj hv
      subst hv
      exact not_lt.mpr hf) _ _ h2
  subst h2
  simp only [if_true] at h4
  obtain ⟨flushed, ll, hcase, hset, rfl⟩ := updateBuffer_eq "" s2 s3 h3
  have hring2 : RingOk s2.ll s2.li := by rw [fll, fli]; exact hring
  have hread := setAt?_read _ _ _ _ hset
  obtain ⟨_, hli0, hli1⟩ := hring2
  have hgap3 : 1 ≤ s2.inp - (s2.out + (flushed.length : Int)) ∧
      s2.inp - (s2.out + (flushed.length : Int)) ≤ 49 := by
    rcases hcase with ⟨rfl, hc⟩ | ⟨⟨x, _, rfl⟩, hc, _⟩
    · simp only [List.length_nil, Nat.cast_zero, add_zero]
      unfold MAX_LINES_TRACK at hc
      have : ¬ (s2.out + 50 ≤ s2.inp) := fun hx => hc ⟨hx, hz⟩
      omega
    · simp only [List.length_singleton, Nat.cast_one]
      unfold MAX_LINES_TRACK at hc
      omega
  unfold flushRemaining at h4
  simp only at h4
  obtain ⟨n, hn⟩ : ∃ n : Nat, (s2.inp - (s2.out + (flushed.length : Int))).toNat = n + 1 :=
    ⟨(s2.inp - (s2.out + (flushed.length : Int))).toNat - 1, by omega⟩
  rw [hn] at h4
  have hstart0 : 0 ≤ s2.li + 1 := by omega
  have hidx : Int.tmod (Int.tmod (s2.li + 1) MAX_LINES_TRACK
      - (s2.inp - (s2.out + (flushed.length : Int))) + MAX_LINES_TRACK) MAX_LINES_TRACK
      = (Int.tmod (s2.li + 1) MAX_LINES_TRACK
      - (s2.inp - (s2.out + (flushed.length : Int))) + MAX_LINES_TRACK) % 50 := by
    apply tmod50
    rw [tmod50 _ hstart0]
    unfold MAX_LINES_TRACK
    omega
  obtain ⟨x, hx, hlastp, hinp', hsl', hout'⟩ := flushLoop_last n _ _ _ h4 hn.symm
    (by rw [hidx]; omega) (by rw [hidx]; omega)
  simp only at hx hlastp hinp' hsl' hout'
  have hslot : Int.tmod (Int.tmod (Int.tmod (s2.li + 1) MAX_LINES_TRACK
      - (s2.inp - (s2.out + (flushed.length : Int))) + MAX_LINES_TRACK) MAX_LINES_TRACK
      + (n : Int)) MAX_LINES_TRACK = s2.li := by
    rw [hidx, tmod50 _ (by omega), Int.emod_add_emod, tmod50 _ hstart0]
    unfold MAX_LINES_TRACK
    omega
  rw [hslot, hread] at hx
  have hx := Option.some.inj hx
  subst hx
  refine ⟨?_, ?_, ?_, hlastp⟩
  · rw [hsl']; exact hsl1
  · rw [hinp', finp, hinp]
  · rw [hout', hinp']

end Uniqlog

namespace Uniqlog

/-! ## What a round prints verbatim -/

end Uniqlog

namespace Uniqlog

/-! ## The scan, in every round in which it runs -/

end Uniqlog

namespace Uniqlog

end Uniqlog

namespace Uniqlog

/-! ## The extra round after a line too long -/

theorem PerformTooLong_counts (cfg : Config) (slow : Int → Bool) (input : List String)
    (s : State) (hk : 0 ≤ cfg.KEEP_SIMILARITY_THRESHOLD)
    (hf : 0 ≤ cfg.FIRST_SIMILARITY_THRESHOLD)
    (h : PerformTooLong cfg slow input = some s) :
    s.inp = ((consumed input).length : Int) + 2 ∧ s.out = s.inp := by
  unfold PerformTooLong at h
  simp only [Option.bind_eq_some] at h
  obtain ⟨s1, h1, h2⟩ := h
  obtain ⟨_, hidle, hinp, hout, _⟩ := Perform_sentinel cfg slow input s1 hk hf h1
  have hok : CountersOk s1 := by
    constructor
    · intro _; omega
    · intro hpos
      rw [hidle] at hpos
      simp at hpos
  obtain ⟨hi, _, _, ho⟩ := round_counters cfg slow true "" s1 s hok h2
  exact ⟨by omega, ho rfl⟩

/-- C20: the code at the failing input.  One line is delivered and the scanner
then stops at a line too long.  When the input just ends after the line, the
extra round runs once: `inp` is 2 and one empty line is printed.  After the line
too long it runs twice: `inp` is 3, one more than the number of lines of
two bytes or more plus one, and two empty lines are printed. -/
theorem C20_extra_round_runs_twice_after_line_too_long :
    (consumed ["ab cd ef"]).length = 1 ∧
    (Perform defaultConfig fast ["ab cd ef"]).map (fun s => (s.stdout, s.inp, s.out))
      = some ([Printed.plain "ab cd ef", Printed.plain ""], 2, 2) ∧
    (PerformTooLong defaultConfig fast ["ab cd ef"]).map (fun s => (s.stdout, s.inp, s.out))
      = some ([Printed.plain "ab cd ef", Printed.plain "", Printed.plain ""], 3, 3) ∧
    (PerformTooLong defaultConfig fast []).map (fun s => (s.stdout, s.inp, s.out))
      = some ([Printed.plain "", Printed.plain ""], 2, 2) := by
  decide!

end Uniqlog
